import Mathlib

/-!
Verification of the document codec and authentication engine of the
zk-passport integration repository, as a shallow embedding in Lean 4.

Buffers are modelled as `List Nat` of byte values; JavaScript `bigint`
arithmetic is ordinary `Nat` arithmetic; JavaScript `number` values that
may go negative (offsets, 32-bit bitwise results) are `Int`; code that can
throw returns `Except JsError _`.  External collaborators (SHA-256/SHA-1,
the Poseidon hash, PEM/X.509 loading) are passed in as function parameters,
mirroring their role as black boxes in the source.
-/

/-- Error values thrown by the embedded code. -/
inductive JsError where
  /-- `byteArray must be at least 120 bytes` thrown by `hashPacked`. -/
  | invalidModulusLength : JsError
  /-- `SyntaxError: Cannot convert 0x to a BigInt` raised by `BigInt('0x' + '')`
  when a sliced buffer is empty. -/
  | syntaxError : JsError
  /-- Any `throw new Error(...)` with a structural message; the payload is an
  abbreviation of the source message. -/
  | malformed (msg : String) : JsError
deriving DecidableEq, Repr

/-- `bufferToBigInt` (part_001): `BigInt('0x' + buf.toString('hex'))`, i.e. the
big-endian base-256 value of the byte list.  Total form, used where the buffer
is known to be non-empty. -/
def bufferToBigInt (buf : List Nat) : Nat :=
  buf.foldl (fun acc b => acc * 256 + b) 0

/-- The same conversion where the buffer may be empty: `BigInt('0x')` throws a
`SyntaxError`, which `hashPacked` does not catch. -/
def bufferToBigIntE (buf : List Nat) : Except JsError Nat :=
  if buf.isEmpty then .error .syntaxError else .ok (bufferToBigInt buf)

/-- `bigIntToBuffer(value, length)` (part_001): hex string padded with `'0'` to
`2*length` digits, decoded big-endian.  For `value < 256^length` (the only
case the repository exercises: the value is always reduced mod the modulus,
which fits in `length` bytes) this is the `length`-byte big-endian encoding. -/
def bigIntToBuffer (value : Nat) (length : Nat) : List Nat :=
  match length with
  | 0 => []
  | l + 1 => bigIntToBuffer (value / 256) l ++ [value % 256]

/-- The body of the `while` loop of `modPow` (part_001), fuelled so that the
definition is structural; `modPow` supplies fuel `exp + 1`, which is more than
the number of iterations since `exp` halves each round. -/
def modPowLoop : Nat → Nat → Nat → Nat → Nat → Nat
  | 0, result, _, _, _ => result
  | fuel + 1, result, base, exp, modulus =>
    if exp = 0 then result
    else
      modPowLoop fuel
        (if exp % 2 = 1 then result * base % modulus else result)
        (base * base % modulus) (exp / 2) modulus

/-- `modPow(base, exp, modulus)` (part_001): binary modular exponentiation,
`result = 1; base %= modulus; while exp > 0 do ...`. -/
def modPow (base exp modulus : Nat) : Nat :=
  modPowLoop (exp + 1) 1 (base % modulus) exp modulus

theorem modPowLoop_exp_zero (fuel result base modulus : Nat) :
    modPowLoop fuel result base 0 modulus = result := by
  cases fuel <;> simp [modPowLoop]

theorem modPowLoop_eq (modulus : Nat) :
    ∀ fuel exp result base, exp < fuel → 0 < exp →
      modPowLoop fuel result base exp modulus = result * base ^ exp % modulus := by
  intro fuel
  induction fuel with
  | zero => intro exp result base h; omega
  | succ f ih =>
    intro exp result base hlt hpos
    rw [modPowLoop]
    have hne : ¬ exp = 0 := Nat.pos_iff_ne_zero.mp hpos
    simp only [hne, if_false]
    by_cases hhalf : exp / 2 = 0
    · have hexp1 : exp = 1 := by omega
      subst hexp1
      rw [modPowLoop_exp_zero]
      simp [Nat.mul_mod]
    · have hrec := ih (exp / 2) (if exp % 2 = 1 then result * base % modulus else result)
        (base * base % modulus) (by omega) (Nat.pos_iff_ne_zero.mpr hhalf)
      rw [hrec]
      have hpow : ∀ r : Nat, r * (base * base % modulus) ^ (exp / 2) % modulus
          = r * (base * base) ^ (exp / 2) % modulus := by
        intro r
        conv_lhs => rw [Nat.mul_mod, Nat.pow_mod]
        conv_rhs => rw [Nat.mul_mod, Nat.pow_mod]
        simp
      by_cases hodd : exp % 2 = 1
      · simp only [hodd, if_true]
        rw [hpow]
        have hexp : exp = 2 * (exp / 2) + 1 := by omega
        conv_rhs => rw [hexp]
        have hr : result * base * (base * base) ^ (exp / 2)
            = result * base ^ (2 * (exp / 2) + 1) := by ring
        conv_lhs => rw [Nat.mul_mod, Nat.mod_mod_of_dvd _ dvd_rfl, ← Nat.mul_mod, hr]
      · simp only [hodd, if_false]
        rw [hpow]
        have hexp : exp = 2 * (exp / 2) := by omega
        conv_rhs => rw [hexp]
        have hr : result * (base * base) ^ (exp / 2) = result * base ^ (2 * (exp / 2)) := by
          ring
        rw [hr]

/-- `modPow` computes modular exponentiation: for a positive exponent it agrees
with `base ^ exp % modulus`. -/
theorem modPow_eq (base exp modulus : Nat) (he : 0 < exp) :
    modPow base exp modulus = base ^ exp % modulus := by
  unfold modPow
  rw [modPowLoop_eq modulus (exp + 1) exp 1 (base % modulus) (by omega) he]
  rw [one_mul, ← Nat.pow_mod]

/-! ### Arithmetic facts about the byte-sequence conversions -/

theorem bufferToBigInt_acc (l : List Nat) (acc : Nat) :
    l.foldl (fun a b => a * 256 + b) acc = acc * 256 ^ l.length + bufferToBigInt l := by
  induction l generalizing acc with
  | nil => simp [bufferToBigInt]
  | cons b t ih =>
    show t.foldl (fun a b => a * 256 + b) (acc * 256 + b)
        = acc * 256 ^ (b :: t).length + bufferToBigInt (b :: t)
    rw [ih]
    have hbt : bufferToBigInt (b :: t) = b * 256 ^ t.length + bufferToBigInt t := by
      show t.foldl (fun a b => a * 256 + b) (0 * 256 + b) = _
      rw [ih]
      ring_nf
    rw [hbt, List.length_cons]
    ring

theorem bufferToBigInt_cons (b : Nat) (t : List Nat) :
    bufferToBigInt (b :: t) = b * 256 ^ t.length + bufferToBigInt t := by
  show t.foldl (fun a b => a * 256 + b) (0 * 256 + b) = _
  rw [bufferToBigInt_acc]
  ring_nf

theorem bufferToBigInt_append (a b : List Nat) :
    bufferToBigInt (a ++ b)
      = bufferToBigInt a * 256 ^ b.length + bufferToBigInt b := by
  show (a ++ b).foldl (fun x y => x * 256 + y) 0 = _
  rw [List.foldl_append, bufferToBigInt_acc]
  rfl

theorem bufferToBigInt_singleton (b : Nat) : bufferToBigInt [b] = b := by
  simp [bufferToBigInt_cons, bufferToBigInt]

theorem bufferToBigInt_lt (l : List Nat) (h : ∀ b ∈ l, b < 256) :
    bufferToBigInt l < 256 ^ l.length := by
  induction l with
  | nil => simp [bufferToBigInt]
  | cons b t ih =>
    rw [bufferToBigInt_cons, List.length_cons]
    have hb : b ≤ 255 := by have := h b (by simp); omega
    have ht : bufferToBigInt t < 256 ^ t.length := ih (fun x hx => h x (by simp [hx]))
    calc b * 256 ^ t.length + bufferToBigInt t
        ≤ 255 * 256 ^ t.length + bufferToBigInt t := by
          have := Nat.mul_le_mul_right (256 ^ t.length) hb
          omega
      _ < 255 * 256 ^ t.length + 256 ^ t.length := by omega
      _ = 256 ^ (t.length + 1) := by ring

theorem bigIntToBuffer_length (v k : Nat) : (bigIntToBuffer v k).length = k := by
  induction k generalizing v with
  | zero => rfl
  | succ l ih => simp [bigIntToBuffer, ih]

theorem bigIntToBuffer_bytes_lt (v k : Nat) : ∀ b ∈ bigIntToBuffer v k, b < 256 := by
  induction k generalizing v with
  | zero => simp [bigIntToBuffer]
  | succ l ih =>
    intro b hb
    simp only [bigIntToBuffer, List.mem_append, List.mem_singleton] at hb
    rcases hb with hb | hb
    · exact ih (v / 256) b hb
    · subst hb; exact Nat.mod_lt _ (by omega)

theorem mod_mul_pow_succ (v P : Nat) (hP : 0 < P) :
    v % (256 * P) = 256 * (v / 256 % P) + v % 256 := by
  conv_lhs => rw [← Nat.div_add_mod v 256]
  rw [Nat.add_mod, Nat.mul_mod_mul_left]
  have h1 : v % 256 % (256 * P) = v % 256 := by
    apply Nat.mod_eq_of_lt
    have : v % 256 < 256 := Nat.mod_lt _ (by omega)
    calc v % 256 < 256 := this
      _ = 256 * 1 := by ring
      _ ≤ 256 * P := by exact Nat.mul_le_mul_left 256 hP
  rw [h1]
  apply Nat.mod_eq_of_lt
  have h2 : v / 256 % P < P := Nat.mod_lt _ hP
  have h3 : v % 256 < 256 := Nat.mod_lt _ (by omega)
  calc 256 * (v / 256 % P) + v % 256
      ≤ 256 * (P - 1) + 255 := by
        have := Nat.mul_le_mul_left 256 (by omega : v / 256 % P ≤ P - 1)
        omega
    _ < 256 * P := by
        have : 1 ≤ P := hP
        calc 256 * (P - 1) + 255 < 256 * (P - 1) + 256 := by omega
          _ = 256 * (P - 1 + 1) := by ring
          _ = 256 * P := by rw [Nat.sub_add_cancel this]

theorem bufferToBigInt_bigIntToBuffer (v k : Nat) :
    bufferToBigInt (bigIntToBuffer v k) = v % 256 ^ k := by
  induction k generalizing v with
  | zero => simp [bigIntToBuffer, bufferToBigInt]; omega
  | succ l ih =>
    show bufferToBigInt (bigIntToBuffer (v / 256) l ++ [v % 256]) = _
    rw [bufferToBigInt_append, bufferToBigInt_singleton, List.length_singleton,
      pow_one, ih]
    have h : (256 : Nat) ^ (l + 1) = 256 * 256 ^ l := by ring
    rw [h, mod_mul_pow_succ v (256 ^ l) (Nat.pos_pow_of_pos l (by omega))]
    ring

theorem bigIntToBuffer_bufferToBigInt (l : List Nat) (h : ∀ b ∈ l, b < 256) :
    bigIntToBuffer (bufferToBigInt l) l.length = l := by
  induction l using List.reverseRecOn with
  | nil => rfl
  | append_singleton t b ih =>
    rw [bufferToBigInt_append, bufferToBigInt_singleton, List.length_append,
      List.length_singleton, pow_one]
    show bigIntToBuffer (bufferToBigInt t * 256 + b) (t.length + 1) = t ++ [b]
    have hb : b < 256 := h b (by simp)
    have hdiv : (bufferToBigInt t * 256 + b) / 256 = bufferToBigInt t := by
      omega
    have hmod : (bufferToBigInt t * 256 + b) % 256 = b := by
      omega
    show bigIntToBuffer ((bufferToBigInt t * 256 + b) / 256) t.length
        ++ [(bufferToBigInt t * 256 + b) % 256] = t ++ [b]
    rw [hdiv, hmod, ih (fun x hx => h x (by simp [hx]))]


/-! ### JavaScript primitives: indexing, `Buffer#slice`, 32-bit bitwise ops -/

/-- `buffer[i]` for an integer index.  A read outside the bounds yields
`undefined` in JavaScript; every theorem below keeps reads in bounds, and the
embedding returns `0` for such reads. -/
def jsGet (l : List Nat) (i : Int) : Nat :=
  if 0 ≤ i then l.getD i.toNat 0 else 0

/-- `Buffer#slice(start, end)` (an alias of `subarray`): negative indices count
from the end of the buffer, indices are clamped to `[0, length]`, and a start
at or past the end yields the empty buffer. -/
def jsSlice (l : List Nat) (s e : Int) : List Nat :=
  let len : Int := l.length
  let s' : Nat := (if s < 0 then max (len + s) 0 else min s len).toNat
  let e' : Nat := (if e < 0 then max (len + e) 0 else min e len).toNat
  (l.take e').drop s'

/-- `ToInt32`: reduce an integer into `[-2^31, 2^31)`, as JavaScript bitwise
operators do. -/
def toInt32 (n : Int) : Int :=
  let m := n % 4294967296
  if m < 2147483648 then m else m - 4294967296

/-- One step of the long-form DER length loop:
`length = (length << 8) | buffer[...]`.  For an int32 `len` and a byte
`b < 256` the JavaScript expression equals `toInt32 (len * 256) + b`: the
shift wraps to int32 leaving the low 8 bits clear, and or-ing a byte into
those clear bits adds it in two's complement. -/
def jsShlOrByte (len : Int) (b : Nat) : Int :=
  toInt32 (len * 256) + b

/-- `parseDERLength(buffer, offset)` (part_004 and `src/utils/sod.ts`): decode
DER length octets.  Returns `(length, bytesRead)`; `length` is an `Int`
because the JavaScript accumulator is subject to int32 wrap-around. -/
def parseDERLength (buffer : List Nat) (offset : Int) : Int × Nat :=
  let b0 := jsGet buffer offset
  if b0 &&& 0x80 ≠ 0 then
    let numLengthBytes := b0 &&& 0x7f
    ((List.range numLengthBytes).foldl
      (fun len (i : Nat) => jsShlOrByte len (jsGet buffer (offset + 1 + (i : Int)))) 0,
      1 + numLengthBytes)
  else ((b0 : Int), 1)

theorem jsGet_nat (l : List Nat) (n : Nat) : jsGet l (n : Int) = l.getD n 0 := by
  simp [jsGet]

theorem jsGet_concat (pre mid post : List Nat) (i : Nat) (h : i < mid.length) :
    jsGet (pre ++ mid ++ post) ((pre.length : Int) + i) = mid.getD i 0 := by
  have hcast : ((pre.length : Int) + i) = ((pre.length + i : Nat) : Int) := by
    push_cast; ring
  rw [hcast, jsGet_nat, List.append_assoc,
    List.getD_append_right pre (mid ++ post) 0 (pre.length + i) (by omega)]
  have : pre.length + i - pre.length = i := by omega
  rw [this, List.getD_append mid post 0 i h]

theorem toInt32_id (n : Int) (h0 : 0 ≤ n) (h1 : n < 2147483648) : toInt32 n = n := by
  unfold toInt32
  have : n % 4294967296 = n := Int.emod_eq_of_lt h0 (by omega)
  simp only [this]
  omega

theorem foldl_jsShlOrByte (bs : List Nat) : ∀ acc : Int, 0 ≤ acc →
    acc * (256 : Int) ^ bs.length + (bufferToBigInt bs : Int) < 2147483648 →
    (∀ b ∈ bs, b < 256) →
    bs.foldl jsShlOrByte acc = acc * 256 ^ bs.length + (bufferToBigInt bs : Int) := by
  induction bs with
  | nil => intro acc h0 hlt hb; simp [bufferToBigInt]
  | cons b t ih =>
    intro acc h0 hlt hb
    have hbeq : (bufferToBigInt (b :: t) : Int)
        = (b : Int) * 256 ^ t.length + (bufferToBigInt t : Int) := by
      rw [bufferToBigInt_cons]; push_cast; ring
    have hpow : (1 : Int) ≤ 256 ^ t.length := by
      have h := pow_pos (by omega : (0 : Int) < 256) t.length
      omega
    have hbe0 : (0 : Int) ≤ (bufferToBigInt t : Int) := Int.natCast_nonneg _
    have hb0 : (0 : Int) ≤ (b : Int) := Int.natCast_nonneg _
    have hkey : (acc * 256 + b) * 256 ^ t.length + (bufferToBigInt t : Int)
        = acc * 256 ^ (t.length + 1) + (bufferToBigInt (b :: t) : Int) := by
      rw [hbeq]; ring
    have hstep : acc * 256 + (b : Int) < 2147483648 := by
      have h1 : acc * 256 + (b : Int) ≤ (acc * 256 + b) * 256 ^ t.length := by
        calc acc * 256 + (b : Int) = (acc * 256 + b) * 1 := by ring
          _ ≤ (acc * 256 + b) * 256 ^ t.length := by
              apply mul_le_mul_of_nonneg_left hpow
              positivity
      have h2 : (acc * 256 + b) * 256 ^ t.length + (bufferToBigInt t : Int)
          < 2147483648 := by
        rw [hkey]
        simpa [List.length_cons] using hlt
      omega
    show List.foldl jsShlOrByte (jsShlOrByte acc b) t = _
    have hshl : jsShlOrByte acc b = acc * 256 + b := by
      unfold jsShlOrByte
      rw [toInt32_id (acc * 256) (by positivity) (by omega)]
    rw [hshl, ih (acc * 256 + b) (by positivity) (by rw [hkey]; simpa using hlt)
      (fun x hx => hb x (by simp [hx]))]
    rw [hkey, List.length_cons]

/-- A byte sequence `bs` is a valid DER length encoding of the value `v`
(with `v` small enough that the JavaScript int32 accumulator is exact). -/
def IsDerLen (bs : List Nat) (v : Nat) : Prop :=
  (v < 128 ∧ bs = [v]) ∨
  (∃ tail : List Nat, bs = (128 + tail.length) :: tail ∧ tail.length ≤ 127 ∧
    (∀ b ∈ tail, b < 256) ∧ bufferToBigInt tail = v ∧ v < 2147483648)

theorem range_map_jsGet (pre tail post : List Nat) :
    (List.range tail.length).map
      (fun i : Nat => jsGet (pre ++ tail ++ post) ((pre.length : Int) + (i : Int)))
      = tail := by
  apply List.ext_getElem
  · simp
  · intro i h1 h2
    simp only [List.getElem_map, List.getElem_range]
    have hi : i < tail.length := by simpa using h2
    rw [jsGet_concat pre tail post i hi]
    exact List.getD_eq_getElem tail 0 hi

/-- `parseDERLength` decodes any valid DER length encoding placed at an
arbitrary offset inside a larger buffer. -/
theorem parseDERLength_spec (pre bs post : List Nat) (v : Nat) (h : IsDerLen bs v) :
    parseDERLength (pre ++ bs ++ post) (pre.length : Int) = ((v : Int), bs.length) := by
  rcases h with ⟨hv, hbs⟩ | ⟨tail, hbs, hlen, hbytes, hval, hsmall⟩
  · subst hbs
    unfold parseDERLength
    have hget : jsGet (pre ++ [v] ++ post) ((pre.length : Int)) = v := by
      have := jsGet_concat pre [v] post 0 (by simp)
      simpa using this
    simp only [hget]
    have hand : v &&& 0x80 = 0 := by
      have := Nat.and_two_pow v 7
      have ht : v.testBit 7 = false := by
        rw [Nat.testBit_to_div_mod]
        simp only [decide_eq_false_iff_not]
        omega
      simpa [ht] using this
    simp [hand]
  · subst hbs
    unfold parseDERLength
    have hget : jsGet (pre ++ ((128 + tail.length) :: tail) ++ post)
        ((pre.length : Int)) = 128 + tail.length := by
      have := jsGet_concat pre ((128 + tail.length) :: tail) post 0 (by simp)
      simpa using this
    simp only [hget]
    have hand : (128 + tail.length) &&& 0x80 = 128 := by
      have := Nat.and_two_pow (128 + tail.length) 7
      have ht : (128 + tail.length).testBit 7 = true := by
        rw [Nat.testBit_to_div_mod]
        simp only [decide_eq_true_eq]
        omega
      simpa [ht] using this
    have hand7 : (128 + tail.length) &&& 0x7f = tail.length := by
      have h127 : (0x7f : Nat) = 2 ^ 7 - 1 := by norm_num
      rw [h127, Nat.and_pow_two_sub_one_eq_mod]
      omega
    rw [hand, hand7]
    simp only [ne_eq, OfNat.ofNat_ne_zero, not_false_eq_true, if_pos]
    refine Prod.ext ?_ (by simp [Nat.add_comm])
    show (List.range tail.length).foldl
      (fun len (i : Nat) => jsShlOrByte len
        (jsGet (pre ++ ((128 + tail.length) :: tail) ++ post)
          ((pre.length : Int) + 1 + (i : Int)))) 0 = (v : Int)
    have hreads : ∀ i : Nat, i < tail.length →
        jsGet (pre ++ ((128 + tail.length) :: tail) ++ post)
          ((pre.length : Int) + 1 + (i : Int))
        = jsGet ((pre ++ [128 + tail.length]) ++ tail ++ post)
          (((pre ++ [128 + tail.length]).length : Int) + (i : Int)) := by
      intro i hi
      have h1 : pre ++ ((128 + tail.length) :: tail) ++ post
          = (pre ++ [128 + tail.length]) ++ tail ++ post := by simp
      have h2 : ((pre.length : Int) + 1 + (i : Int))
          = (((pre ++ [128 + tail.length]).length : Int) + (i : Int)) := by
        push_cast [List.length_append, List.length_singleton]
        ring
      rw [h1, h2]
    have hmap : (List.range tail.length).map
        (fun i : Nat => jsGet (pre ++ ((128 + tail.length) :: tail) ++ post)
          ((pre.length : Int) + 1 + (i : Int))) = tail := by
      rw [List.map_congr_left (fun i hi => hreads i (List.mem_range.mp hi))]
      exact range_map_jsGet (pre ++ [128 + tail.length]) tail post
    rw [← List.foldl_map
      (fun i : Nat => jsGet (pre ++ ((128 + tail.length) :: tail) ++ post)
        ((pre.length : Int) + 1 + (i : Int))) jsShlOrByte, hmap]
    rw [foldl_jsShlOrByte tail 0 le_rfl (by rw [hval]; omega) hbytes]
    rw [hval]
    ring


theorem byte_and_0x80_eq_zero (b0 : Nat) (h : b0 < 128) : b0 &&& 0x80 = 0 := by
  have := Nat.and_two_pow b0 7
  have ht : b0.testBit 7 = false := by
    rw [Nat.testBit_to_div_mod]
    simp only [decide_eq_false_iff_not]
    omega
  simpa [ht] using this

theorem byte_and_0x80_eq_128 (b0 : Nat) (h1 : 128 ≤ b0) (h2 : b0 < 256) :
    b0 &&& 0x80 = 128 := by
  have := Nat.and_two_pow b0 7
  have ht : b0.testBit 7 = true := by
    rw [Nat.testBit_to_div_mod]
    simp only [decide_eq_true_eq]
    omega
  simpa [ht] using this

theorem and_0x7f_eq_mod (b0 : Nat) : b0 &&& 0x7f = b0 % 128 := by
  have h127 : (0x7f : Nat) = 2 ^ 7 - 1 := by norm_num
  rw [h127, Nat.and_pow_two_sub_one_eq_mod]

/-- C4 (amended): `parseDERLength(buffer, offset)` decodes DER length octets.
If the high bit of the first octet is clear, the length is that octet's low
7 bits and one byte is consumed.  Otherwise, with `k` the low 7 bits of the
first octet, the length is the big-endian integer formed by the next `k`
octets and `1+k` bytes are consumed — provided those `k` octets lie within
the buffer and the decoded value fits in a signed 32-bit integer; the
JavaScript accumulator `(length << 8) | byte` wraps to int32 beyond that
(see the counterexample). -/
theorem parseDERLength_correct (buffer : List Nat) (offset : Nat)
    (hbytes : ∀ b ∈ buffer, b < 256) (hoff : offset < buffer.length) :
    (buffer.getD offset 0 &&& 0x80 = 0 →
      parseDERLength buffer (offset : Int)
        = (((buffer.getD offset 0 &&& 0x7f : Nat) : Int), 1)) ∧
    (buffer.getD offset 0 &&& 0x80 ≠ 0 →
      ∀ k : Nat, k = buffer.getD offset 0 &&& 0x7f →
      offset + 1 + k ≤ buffer.length →
      bufferToBigInt ((buffer.drop (offset + 1)).take k) < 2147483648 →
      parseDERLength buffer (offset : Int)
        = ((bufferToBigInt ((buffer.drop (offset + 1)).take k) : Int), 1 + k)) := by
  have hb0 : buffer.getD offset 0 < 256 := by
    have hmem : buffer.getD offset 0 ∈ buffer := by
      rw [List.getD_eq_getElem buffer 0 hoff]
      exact List.getElem_mem hoff
    exact hbytes _ hmem
  constructor
  · intro hclear
    have hlt : buffer.getD offset 0 < 128 := by
      by_contra hge
      rw [byte_and_0x80_eq_128 _ (by omega) hb0] at hclear
      omega
    have hlow : buffer.getD offset 0 &&& 0x7f = buffer.getD offset 0 := by
      rw [and_0x7f_eq_mod]
      exact Nat.mod_eq_of_lt hlt
    rw [hlow]
    unfold parseDERLength
    rw [jsGet_nat]
    rw [if_neg (not_not_intro hclear)]
  · intro hset k hk hbound hsmall
    have hge : 128 ≤ buffer.getD offset 0 := by
      by_contra hlt
      exact hset (byte_and_0x80_eq_zero _ (by omega))
    have hkval : k = buffer.getD offset 0 - 128 := by
      rw [hk, and_0x7f_eq_mod]
      omega
    set seg := (buffer.drop (offset + 1)).take k with hseg
    have hseglen : seg.length = k := by
      rw [hseg, List.length_take, List.length_drop]
      omega
    have hdecomp : buffer = buffer.take offset
        ++ ((128 + seg.length) :: seg) ++ buffer.drop (offset + 1 + k) := by
      have h2 : buffer.drop offset = buffer.getD offset 0 :: buffer.drop (offset + 1) := by
        rw [List.getD_eq_getElem buffer 0 hoff]
        exact List.drop_eq_getElem_cons hoff
      have h3 : buffer.drop (offset + 1)
          = seg ++ buffer.drop (offset + 1 + k) := by
        rw [hseg]
        have h := List.take_append_drop k (buffer.drop (offset + 1))
        rw [List.drop_drop] at h
        exact h.symm
      have h4 : (128 + seg.length) = buffer.getD offset 0 := by
        rw [hseglen]; omega
      calc buffer = buffer.take offset ++ buffer.drop offset :=
            (List.take_append_drop offset buffer).symm
        _ = buffer.take offset
            ++ (buffer.getD offset 0 :: (seg ++ buffer.drop (offset + 1 + k))) := by
              rw [h2, h3]
        _ = buffer.take offset
            ++ ((128 + seg.length) :: seg) ++ buffer.drop (offset + 1 + k) := by
              rw [h4]; simp
    have hderlen : IsDerLen ((128 + seg.length) :: seg) (bufferToBigInt seg) := by
      right
      refine ⟨seg, rfl, by omega, ?_, rfl, hsmall⟩
      intro b hb
      exact hbytes b (List.mem_of_mem_drop (List.mem_of_mem_take hb))
    have hpre : (buffer.take offset).length = offset := by
      rw [List.length_take]; omega
    have hspec := parseDERLength_spec (buffer.take offset) ((128 + seg.length) :: seg)
      (buffer.drop (offset + 1 + k)) (bufferToBigInt seg) hderlen
    rw [← hdecomp, hpre] at hspec
    rw [hspec]
    refine Prod.ext rfl ?_
    show (((128 + seg.length) :: seg).length) = 1 + k
    rw [List.length_cons, hseglen]
    omega

/-- C4, counterexample to the claim as stated: with length octets
`85 01 00 00 00 00` the big-endian value of the five octets is `2^32`, but the
JavaScript int32 accumulator wraps and the code returns length `0`. -/
theorem parseDERLength_counterexample :
    (parseDERLength [0x85, 1, 0, 0, 0, 0] 0).1
      ≠ ((bufferToBigInt [1, 0, 0, 0, 0] : Nat) : Int) := by
  decide

/-- Witness: the amended C4 theorem applied to the concrete buffer
`05 82 01 00` at offset 1 decodes the long-form length `256` from two octets. -/
theorem parseDERLength_correct_witness :
    ([5, 130, 1, 0].getD 1 0 &&& 0x80 ≠ 0) ∧
      parseDERLength [5, 130, 1, 0] ((1 : Nat) : Int) = ((256 : Int), 3) := by
  refine ⟨by decide, ?_⟩
  have h := (parseDERLength_correct [5, 130, 1, 0] 1 (by decide) (by decide)).2
    (by decide) 2 (by decide) (by decide) (by decide)
  simpa using h

/-! ### Document Builder: DG1 / MRZ (part_002, `generateDG1`) -/

/-- `checkDigitWeights` (part_002): the ICAO weight cycle. -/
def checkDigitWeights : List Nat := [7, 3, 1]

/-- The per-character value used by `calculateCheckDigit` (part_002):
`/\d/.test(char) ? parseInt(char) : charValues[char]`, where `charValues` is
the literal 27-entry table mapping `'<'` to 0 and `'A'`–`'Z'` to 10–35
(tabulated here as the corresponding arithmetic on the character code).  A
character outside the table yields `undefined`, modelled as `none`; in the
source it poisons the running sum to `NaN`. -/
def charValue (c : Char) : Option Nat :=
  if c.isDigit then some (c.toNat - 48)
  else if c = '<' then some 0
  else if 'A' ≤ c ∧ c ≤ 'Z' then some (c.toNat - 55)
  else none

/-- One iteration of the `calculateCheckDigit` loop:
`sum += value * checkDigitWeights[i % 3]`, with `NaN` (`none`) absorbing. -/
def checkDigitStep (acc : Option Nat) (ic : Nat × Char) : Option Nat := do
  let a ← acc
  let v ← charValue ic.2
  pure (a + v * checkDigitWeights.getD (ic.1 % 3) 0)

/-- `calculateCheckDigit(data)` (part_002): weighted sum of character values
mod 10; `none` models the `NaN` produced by a character outside the value
table. -/
def calculateCheckDigit (data : List Char) : Option Nat :=
  (data.enum.foldl checkDigitStep (some 0)).map (· % 10)

/-- The string interpolation `${check}` of a check digit: a decimal digit
character, or the three characters `NaN` when the sum was poisoned. -/
def checkDigitChars : Option Nat → List Char
  | some n => [Char.ofNat (48 + n)]
  | none => ['N', 'a', 'N']

/-- `String.prototype.padEnd(n, c)`: pad on the right up to length `n`
(never truncates). -/
def padEnd (s : List Char) (n : Nat) (c : Char) : List Char :=
  s ++ List.replicate (n - s.length) c

/-- The input record of `generateDG1` (the `PassportData` interface of
part_002); strings are lists of characters. -/
structure PassportData where
  documentType : List Char
  issuingCountry : List Char
  surname : List Char
  givenNames : List Char
  passportNumber : List Char
  nationality : List Char
  dateOfBirth : List Char
  sex : List Char
  expiryDate : List Char
  personalNumber : List Char

/-- `givenNames.replace(/ /g, '<')` in `generateDG1`. -/
def givenNamesFormatted (p : PassportData) : List Char :=
  p.givenNames.map (fun c => if c = ' ' then '<' else c)

/-- The `namesPart` computation of `generateDG1`: `surname<<givenNames`,
truncated to the 39 characters available after `P<ITA`, preferring the
surname. -/
def namesPart (p : PassportData) : List Char :=
  if (p.surname ++ ['<', '<'] ++ givenNamesFormatted p).length > 39 then
    if (p.surname ++ ['<', '<']).length ≥ 39 then
      p.surname.take (39 - 2) ++ ['<', '<']
    else
      (p.surname ++ ['<', '<'])
        ++ (givenNamesFormatted p).take (39 - (p.surname ++ ['<', '<']).length)
  else p.surname ++ ['<', '<'] ++ givenNamesFormatted p

/-- `line1` of `generateDG1`:
`` `${documentType}<${issuingCountry}${namesPart}`.padEnd(44, '<') ``. -/
def mrzLine1 (p : PassportData) : List Char :=
  padEnd (p.documentType ++ ['<'] ++ p.issuingCountry ++ namesPart p) 44 '<'

/-- `personalNumber.padEnd(14, '<')` in `generateDG1`. -/
def personalNumberPadded (p : PassportData) : List Char :=
  padEnd p.personalNumber 14 '<'

/-- The `compositeData` template literal of `generateDG1`: passport number and
check digit, nationality, date of birth and check digit, sex, expiry date and
check digit, padded personal number and its check digit (computed on the
unpadded personal number, as in the source). -/
def compositeData (p : PassportData) : List Char :=
  p.passportNumber ++ checkDigitChars (calculateCheckDigit p.passportNumber)
    ++ p.nationality
    ++ p.dateOfBirth ++ checkDigitChars (calculateCheckDigit p.dateOfBirth)
    ++ p.sex
    ++ p.expiryDate ++ checkDigitChars (calculateCheckDigit p.expiryDate)
    ++ personalNumberPadded p
    ++ checkDigitChars (calculateCheckDigit p.personalNumber)

/-- `line2` of `generateDG1`: the composite data followed by the composite
check digit. -/
def mrzLine2 (p : PassportData) : List Char :=
  compositeData p ++ checkDigitChars (calculateCheckDigit (compositeData p))

/-- `generateDG1(passportData)` (part_002), projected onto the two MRZ lines
it computes (the remaining fields of the returned `DG1Data` object — the DER
wrapper and base64 rendering — are not the subject of any claim).  Throws
(`Except.error`) exactly when one of the assembled lines is not 44
characters. -/
def generateDG1 (p : PassportData) : Except JsError (List Char × List Char) :=
  if (mrzLine1 p).length ≠ 44 then
    .error (.malformed "MRZ Line 1 must be 44 characters")
  else if (mrzLine2 p).length ≠ 44 then
    .error (.malformed "MRZ Line 2 must be 44 characters")
  else .ok (mrzLine1 p, mrzLine2 p)

/-- Membership in the MRZ alphabet `A`–`Z`, `0`–`9`, `<`. -/
def isMrzChar (c : Char) : Bool :=
  (c = '<') || c.isDigit || ('A' ≤ c && c ≤ 'Z')

theorem charValue_isSome (c : Char) (h : isMrzChar c = true) :
    (charValue c).isSome = true := by
  unfold charValue
  split
  next => rfl
  next hd =>
    split
    next => rfl
    next hlt =>
      split
      next => rfl
      next haz =>
        exfalso
        simp only [isMrzChar, Bool.or_eq_true, decide_eq_true_eq,
          Bool.and_eq_true] at h
        rcases h with (h | h) | ⟨h1, h2⟩
        · exact hlt h
        · exact hd h
        · exact haz ⟨h1, h2⟩

theorem enumFrom_cons_eq (c : Char) (t : List Char) (i : Nat) :
    (c :: t).enumFrom i = (i, c) :: t.enumFrom (i + 1) := rfl

theorem foldl_checkDigitStep_some (t : List Char) :
    ∀ (i a : Nat), (∀ c ∈ t, (charValue c).isSome = true) →
      ∃ m, (t.enumFrom i).foldl checkDigitStep (some a) = some m := by
  induction t with
  | nil => intro i a _; exact ⟨a, rfl⟩
  | cons c t ih =>
    intro i a h
    obtain ⟨v, hv⟩ := Option.isSome_iff_exists.mp (h c (by simp))
    rw [enumFrom_cons_eq]
    have hstep : checkDigitStep (some a) (i, c)
        = some (a + v * checkDigitWeights.getD (i % 3) 0) := by
      simp [checkDigitStep, hv]
    show ∃ m, (t.enumFrom (i + 1)).foldl checkDigitStep
      (checkDigitStep (some a) (i, c)) = some m
    rw [hstep]
    exact ih (i + 1) _ (fun x hx => h x (by simp [hx]))

theorem calculateCheckDigit_some (data : List Char)
    (h : ∀ c ∈ data, isMrzChar c = true) :
    ∃ n, calculateCheckDigit data = some n ∧ n < 10 := by
  obtain ⟨m, hm⟩ := foldl_checkDigitStep_some data 0 0
    (fun c hc => charValue_isSome c (h c hc))
  refine ⟨m % 10, ?_, Nat.mod_lt _ (by omega)⟩
  unfold calculateCheckDigit
  rw [show data.enum = data.enumFrom 0 from rfl, hm]
  rfl

theorem isMrzChar_digit (n : Nat) (h : n < 10) :
    isMrzChar (Char.ofNat (48 + n)) = true := by
  interval_cases n <;> decide

theorem mem_padEnd (s : List Char) (n : Nat) (c x : Char)
    (h : x ∈ padEnd s n c) : x ∈ s ∨ x = c := by
  unfold padEnd at h
  rcases List.mem_append.mp h with h | h
  · exact Or.inl h
  · exact Or.inr (List.eq_of_mem_replicate h)

theorem checkDigitChars_mrz (data : List Char)
    (h : ∀ c ∈ data, isMrzChar c = true) :
    ∀ x ∈ checkDigitChars (calculateCheckDigit data), isMrzChar x = true := by
  obtain ⟨n, hn, hlt⟩ := calculateCheckDigit_some data h
  rw [hn]
  intro x hx
  simp only [checkDigitChars, List.mem_singleton] at hx
  subst hx
  exact isMrzChar_digit n hlt

theorem givenNamesFormatted_mrz (p : PassportData)
    (hg : ∀ c ∈ p.givenNames, isMrzChar c = true ∨ c = ' ') :
    ∀ x ∈ givenNamesFormatted p, isMrzChar x = true := by
  intro x hx
  unfold givenNamesFormatted at hx
  obtain ⟨c, hc, hmap⟩ := List.mem_map.mp hx
  by_cases hsp : c = ' '
  · rw [if_pos hsp] at hmap
    subst hmap
    decide
  · rw [if_neg hsp] at hmap
    subst hmap
    rcases hg c hc with h | h
    · exact h
    · exact absurd h hsp

theorem mem_sep_chars (x : Char) (h : x ∈ ['<', '<']) : x = '<' := by
  simpa using h

theorem namesPart_mrz (p : PassportData)
    (hsn : ∀ c ∈ p.surname, isMrzChar c = true)
    (hgn : ∀ c ∈ p.givenNames, isMrzChar c = true ∨ c = ' ') :
    ∀ x ∈ namesPart p, isMrzChar x = true := by
  intro x hx
  have hgnf := givenNamesFormatted_mrz p hgn
  have hlt : isMrzChar '<' = true := by decide
  unfold namesPart at hx
  split at hx
  · split at hx
    · rcases List.mem_append.mp hx with h | h
      · exact hsn x (List.mem_of_mem_take h)
      · rw [mem_sep_chars x h]; exact hlt
    · rcases List.mem_append.mp hx with h | h
      · rcases List.mem_append.mp h with h | h
        · exact hsn x h
        · rw [mem_sep_chars x h]; exact hlt
      · exact hgnf x (List.mem_of_mem_take h)
  · rcases List.mem_append.mp hx with h | h
    · rcases List.mem_append.mp h with h | h
      · exact hsn x h
      · rw [mem_sep_chars x h]; exact hlt
    · exact hgnf x h

theorem compositeData_mrz (p : PassportData)
    (hpn : ∀ c ∈ p.passportNumber, isMrzChar c = true)
    (hna : ∀ c ∈ p.nationality, isMrzChar c = true)
    (hdob : ∀ c ∈ p.dateOfBirth, isMrzChar c = true)
    (hsex : ∀ c ∈ p.sex, isMrzChar c = true)
    (hexp : ∀ c ∈ p.expiryDate, isMrzChar c = true)
    (hper : ∀ c ∈ p.personalNumber, isMrzChar c = true) :
    ∀ x ∈ compositeData p, isMrzChar x = true := by
  intro x hx
  have hlt : isMrzChar '<' = true := by decide
  unfold compositeData at hx
  rcases List.mem_append.mp hx with h | h
  · rcases List.mem_append.mp h with h | h
    · rcases List.mem_append.mp h with h | h
      · rcases List.mem_append.mp h with h | h
        · rcases List.mem_append.mp h with h | h
          · rcases List.mem_append.mp h with h | h
            · rcases List.mem_append.mp h with h | h
              · rcases List.mem_append.mp h with h | h
                · rcases List.mem_append.mp h with h | h
                  · exact hpn x h
                  · exact checkDigitChars_mrz _ hpn x h
                · exact hna x h
              · exact hdob x h
            · exact checkDigitChars_mrz _ hdob x h
          · exact hsex x h
        · exact hexp x h
      · exact checkDigitChars_mrz _ hexp x h
    · rcases mem_padEnd _ _ _ _ h with h | h
      · exact hper x h
      · rw [h]; exact hlt
  · exact checkDigitChars_mrz _ hper x h

/-- C5 (amended): whenever `generateDG1` accepts a record (returns rather than
throws), both encoded MRZ lines have length exactly 44; and provided every
input field is drawn from the MRZ alphabet `A`–`Z`, `0`–`9`, `<` (spaces
being additionally allowed in the given names, where the builder folds them
to `<`), every character of both lines is in that alphabet.  The source never
validates the field alphabets, so for inputs outside them the builder can
accept a record whose lines contain foreign characters (see the
counterexample). -/
theorem generateDG1_mrz_invariant (p : PassportData)
    (hdt : ∀ c ∈ p.documentType, isMrzChar c = true)
    (hic : ∀ c ∈ p.issuingCountry, isMrzChar c = true)
    (hsn : ∀ c ∈ p.surname, isMrzChar c = true)
    (hgn : ∀ c ∈ p.givenNames, isMrzChar c = true ∨ c = ' ')
    (hpn : ∀ c ∈ p.passportNumber, isMrzChar c = true)
    (hna : ∀ c ∈ p.nationality, isMrzChar c = true)
    (hdob : ∀ c ∈ p.dateOfBirth, isMrzChar c = true)
    (hsex : ∀ c ∈ p.sex, isMrzChar c = true)
    (hexp : ∀ c ∈ p.expiryDate, isMrzChar c = true)
    (hper : ∀ c ∈ p.personalNumber, isMrzChar c = true)
    (l1 l2 : List Char) (hok : generateDG1 p = .ok (l1, l2)) :
    l1.length = 44 ∧ l2.length = 44 ∧
      (∀ c ∈ l1, isMrzChar c = true) ∧ (∀ c ∈ l2, isMrzChar c = true) := by
  unfold generateDG1 at hok
  split at hok
  · exact absurd hok (by simp)
  · split at hok
    · exact absurd hok (by simp)
    · next h1 h2 =>
      rw [not_not] at h1 h2
      simp only [Except.ok.injEq, Prod.mk.injEq] at hok
      obtain ⟨rfl, rfl⟩ := hok
      refine ⟨h1, h2, ?_, ?_⟩
      · intro c hc
        unfold mrzLine1 at hc
        rcases mem_padEnd _ _ _ _ hc with h | h
        · rcases List.mem_append.mp h with h | h
          · rcases List.mem_append.mp h with h | h
            · rcases List.mem_append.mp h with h | h
              · exact hdt c h
              · rw [List.mem_singleton.mp h]; decide
            · exact hic c h
          · exact namesPart_mrz p hsn hgn c h
        · rw [h]; decide
      · intro c hc
        unfold mrzLine2 at hc
        have hcomp := compositeData_mrz p hpn hna hdob hsex hexp hper
        rcases List.mem_append.mp hc with h | h
        · exact hcomp c h
        · exact checkDigitChars_mrz _ hcomp c h

/-- C5, counterexample to the claim as stated: the builder accepts a record
whose surname contains lowercase letters (it validates only the line lengths),
and the resulting first line then contains characters outside `A`–`Z`,
`0`–`9`, `<`. -/
theorem generateDG1_counterexample :
    (match generateDG1
        ⟨"P".toList, "ITA".toList, "smi".toList, "ANNA".toList,
         "L898902C3".toList, "ITA".toList, "740812".toList, "F".toList,
         "120415".toList, "ZE184226B".toList⟩ with
      | .ok (l1, _) => l1.all isMrzChar
      | .error _ => true) = false := by
  set_option maxRecDepth 8000 in decide

/-- The ICAO specimen record used as a concrete witness input. -/
def icaoSpecimen : PassportData :=
  ⟨"P".toList, "ITA".toList, "ERIKSSON".toList, "ANNA MARIA".toList,
   "L898902C3".toList, "ITA".toList, "740812".toList, "F".toList,
   "120415".toList, "ZE184226B".toList⟩

/-- Witness: the amended C5 theorem applied to the ICAO specimen record. -/
theorem generateDG1_mrz_invariant_witness :
    generateDG1 icaoSpecimen
      = .ok ("P<ITAERIKSSON<<ANNA<MARIA<<<<<<<<<<<<<<<<<<<".toList,
             "L898902C36ITA7408122F1204159ZE184226B<<<<<12".toList) ∧
    ("P<ITAERIKSSON<<ANNA<MARIA<<<<<<<<<<<<<<<<<<<".toList.length = 44 ∧
      "L898902C36ITA7408122F1204159ZE184226B<<<<<12".toList.length = 44 ∧
      (∀ c ∈ "P<ITAERIKSSON<<ANNA<MARIA<<<<<<<<<<<<<<<<<<<".toList,
        isMrzChar c = true) ∧
      (∀ c ∈ "L898902C36ITA7408122F1204159ZE184226B<<<<<12".toList,
        isMrzChar c = true)) := by
  have hok : generateDG1 icaoSpecimen
      = .ok ("P<ITAERIKSSON<<ANNA<MARIA<<<<<<<<<<<<<<<<<<<".toList,
             "L898902C36ITA7408122F1204159ZE184226B<<<<<12".toList) := by
    set_option maxRecDepth 8000 in rfl
  refine ⟨hok, ?_⟩
  exact generateDG1_mrz_invariant icaoSpecimen
    (by decide) (by decide) (by decide) (by decide) (by decide) (by decide)
    (by decide) (by decide) (by decide) (by decide) _ _ hok

/-! ### C6: the check-digit algorithm against the specification formula -/

/-- The character-value map exactly as the specification words it:
`<` maps to 0, digits to themselves, letters to 10 plus their index from
`A`. -/
def specCharValue (c : Char) : Nat :=
  if c = '<' then 0
  else if c.isDigit then c.toNat - 48
  else 10 + (c.toNat - 65)

/-- The check-digit formula as the specification words it: the sum of
character values weighted cyclically by `[7, 3, 1]`, modulo 10. -/
def specCheckDigit (data : List Char) : Nat :=
  ((data.enum.map
    (fun ic => specCharValue ic.2 * [7, 3, 1].getD (ic.1 % 3) 0)).sum) % 10

theorem charValue_spec (c : Char) (h : isMrzChar c = true) :
    charValue c = some (specCharValue c) := by
  simp only [isMrzChar, Bool.or_eq_true, decide_eq_true_eq,
    Bool.and_eq_true] at h
  rcases h with (h | h) | ⟨h1, h2⟩
  · subst h; decide
  · have hne : c ≠ '<' := by
      intro he
      subst he
      exact absurd h (by decide)
    simp [charValue, specCharValue, h, hne]
  · have h65 : 65 ≤ c.toNat := by rw [Char.le_def] at h1; exact h1
    have h90 : c.toNat ≤ 90 := by rw [Char.le_def] at h2; exact h2
    have hd : c.isDigit = false := by
      by_contra hdt
      rw [Bool.not_eq_false] at hdt
      unfold Char.isDigit at hdt
      rw [Bool.and_eq_true, decide_eq_true_eq, decide_eq_true_eq] at hdt
      have : c.toNat ≤ 57 := hdt.2
      omega
    have hne : c ≠ '<' := by
      intro he
      subst he
      exact absurd h65 (by decide)
    have hval : c.toNat - 55 = 10 + (c.toNat - 65) := by omega
    simp [charValue, specCharValue, hd, hne, h1, h2, hval]

theorem foldl_checkDigitStep_eq (t : List Char) :
    ∀ (i a : Nat), (∀ c ∈ t, isMrzChar c = true) →
      (t.enumFrom i).foldl checkDigitStep (some a)
        = some (a + ((t.enumFrom i).map
            (fun ic => specCharValue ic.2 * checkDigitWeights.getD (ic.1 % 3) 0)).sum) := by
  induction t with
  | nil => intro i a _; simp [List.enumFrom]
  | cons c t ih =>
    intro i a h
    rw [enumFrom_cons_eq]
    have hv : charValue c = some (specCharValue c) := charValue_spec c (h c (by simp))
    show (t.enumFrom (i + 1)).foldl checkDigitStep (checkDigitStep (some a) (i, c)) = _
    have hstep : checkDigitStep (some a) (i, c)
        = some (a + specCharValue c * checkDigitWeights.getD (i % 3) 0) := by
      simp [checkDigitStep, hv]
    rw [hstep, ih (i + 1) _ (fun x hx => h x (by simp [hx]))]
    simp only [List.map_cons, List.sum_cons]
    congr 1
    omega

/-- C6: on inputs over the MRZ alphabet, `calculateCheckDigit` computes the
specification's formula — the sum of character values (`<` as 0, digits as
themselves, letters as 10 plus their index from `A`) weighted cyclically by
`[7, 3, 1]`, modulo 10 — and on the ICAO example document number
`L898902C3` it returns 6. -/
theorem calculateCheckDigit_correct :
    (∀ data : List Char, (∀ c ∈ data, isMrzChar c = true) →
      calculateCheckDigit data = some (specCheckDigit data)) ∧
    calculateCheckDigit "L898902C3".toList = some 6 := by
  constructor
  · intro data h
    unfold calculateCheckDigit specCheckDigit
    rw [show data.enum = data.enumFrom 0 from rfl,
      foldl_checkDigitStep_eq data 0 0 h]
    simp [checkDigitWeights]
  · decide

/-- Witness: the C6 theorem applied to the concrete document number of the
ICAO example. -/
theorem calculateCheckDigit_correct_witness :
    calculateCheckDigit "L898902C3".toList
      = some (specCheckDigit "L898902C3".toList) :=
  calculateCheckDigit_correct.1 "L898902C3".toList (by decide)

/-! ### Registry Key Deriver: `hashPacked` (part_005) -/

/-- The inner loop of `hashPacked`: split the window value into three 64-bit
chunks (`extracted = (element >> 64j) & 0xFFFFFFFFFFFFFFFF` for `j = 0,1,2`)
and re-concatenate them in reverse (`reversed = (reversed << 64) | extracted`). -/
def reverseChunks (element : Nat) : Nat :=
  (List.range 3).foldl
    (fun reversed j => (reversed <<< 64) ||| ((element >>> (64 * j)) &&& (2 ^ 64 - 1)))
    0

/-- The `for (i = 0; i < 5; i++)` loop of `hashPacked`, by remaining iteration
count: slice the 32 bytes below `position`, convert to a big integer (throwing
a `SyntaxError` on an empty slice), reverse its chunks, and step `position`
back 24 bytes. -/
def hashPackedLoop (byteArray : List Nat) : Nat → Int → Except JsError (List Nat)
  | 0, _ => .ok []
  | n + 1, position =>
    match bufferToBigIntE (jsSlice byteArray (position - 32) position) with
    | .error e => .error e
    | .ok elementBigInt =>
      match hashPackedLoop byteArray n (position - 24) with
      | .error e => .error e
      | .ok rest => .ok (reverseChunks elementBigInt :: rest)

/-- `hashPacked(byteArray)` (part_005): derive the registry key from a modulus
byte sequence.  The ZK-friendly hash (`poseidon` from
`passport-zk-circuits-noir-js`) is an external collaborator passed in as a
function. -/
def hashPacked (poseidon : List Nat → Nat) (byteArray : List Nat) :
    Except JsError Nat :=
  if byteArray.length < 120 then .error .invalidModulusLength
  else
    match hashPackedLoop byteArray 5 (byteArray.length : Int) with
    | .error e => .error e
    | .ok decomposed => .ok (poseidon decomposed)

/-- The chunk reversal as the specification words it: interpret the 32-byte
window as a big-endian integer, split it into three 64-bit big-endian chunks
(`c1` the most significant of the three; the value's top 64 bits do not
participate), and re-concatenate the chunks in reverse order. -/
def specReversed (v : Nat) : Nat :=
  let c1 := v / 2 ^ 128 % 2 ^ 64
  let c2 := v / 2 ^ 64 % 2 ^ 64
  let c3 := v % 2 ^ 64
  c3 * 2 ^ 128 + c2 * 2 ^ 64 + c1

/-- The `i`-th 32-byte window of the reference algorithm: starting from the
end of the byte sequence and stepping back 24 bytes per collected value. -/
def specWindow (bytes : List Nat) (i : Nat) : List Nat :=
  (bytes.drop (bytes.length - 24 * i - 32)).take 32

/-- The registry-key reference algorithm as the specification words it: five
reversed window values, in collection order, fed to the external ZK-friendly
hash. -/
def specDeriveKey (poseidon : List Nat → Nat) (bytes : List Nat) : Nat :=
  poseidon ((List.range 5).map
    (fun i => specReversed (bufferToBigInt (specWindow bytes i))))

theorem shiftLeft_or_eq_add (x y n : Nat) (h : y < 2 ^ n) :
    (x <<< n) ||| y = x * 2 ^ n + y := by
  apply Nat.eq_of_testBit_eq
  intro j
  rw [Nat.testBit_or, Nat.testBit_shiftLeft]
  have hrhs : x * 2 ^ n + y = 2 ^ n * x + y := by ring
  rw [hrhs, Nat.testBit_mul_pow_two_add x h j]
  rcases Nat.lt_or_ge j n with hj | hj
  · simp [Nat.not_le.mpr hj, hj]
  · have hy : y.testBit j = false :=
      Nat.testBit_lt_two_pow (lt_of_lt_of_le h (Nat.pow_le_pow_right (by omega) hj))
    simp [hj, Nat.not_lt.mpr hj, hy]

theorem reverseChunks_eq_specReversed (v : Nat) :
    reverseChunks v = specReversed v := by
  have hm : ∀ j : Nat, (v >>> (64 * j)) &&& (2 ^ 64 - 1) = v / 2 ^ (64 * j) % 2 ^ 64 := by
    intro j
    rw [Nat.and_pow_two_sub_one_eq_mod, Nat.shiftRight_eq_div_pow]
  have hlt : ∀ a : Nat, a % 2 ^ 64 < 2 ^ 64 := fun a => Nat.mod_lt _ (by positivity)
  have hrange : List.range 3 = [0, 1, 2] := rfl
  unfold reverseChunks
  rw [hrange]
  simp only [List.foldl_cons, List.foldl_nil]
  rw [hm 0, hm 1, hm 2]
  rw [shiftLeft_or_eq_add _ _ _ (hlt _), shiftLeft_or_eq_add _ _ _ (hlt _),
    shiftLeft_or_eq_add _ _ _ (hlt _)]
  show (((0 * 2 ^ 64 + v / 2 ^ (64 * 0) % 2 ^ 64) * 2 ^ 64
      + v / 2 ^ (64 * 1) % 2 ^ 64) * 2 ^ 64 + v / 2 ^ (64 * 2) % 2 ^ 64)
    = specReversed v
  unfold specReversed
  norm_num
  ring

theorem jsSlice_eq_drop_take (l : List Nat) (s e : Nat) (hs : s ≤ e)
    (he : e ≤ l.length) :
    jsSlice l (s : Int) (e : Int) = (l.drop s).take (e - s) := by
  unfold jsSlice
  have hs' : ¬((s : Int) < 0) := by omega
  have he' : ¬((e : Int) < 0) := by omega
  simp only [hs', he', if_false]
  have h1 : (min (s : Int) (l.length : Int)).toNat = s := by omega
  have h2 : (min (e : Int) (l.length : Int)).toNat = e := by omega
  rw [h1, h2]
  rw [List.drop_take]

theorem jsSlice_neg_start_empty (l : List Nat) (p : Nat) (hp : p < 32)
    (hlen : 32 ≤ l.length) (hnn : (32 : Int) ≤ (l.length : Int) + p) :
    jsSlice l ((p : Int) - 32) (p : Int) = [] := by
  unfold jsSlice
  have hneg : ((p : Int) - 32) < 0 := by omega
  have hpn : ¬((p : Int) < 0) := by omega
  simp only [hneg, if_true, hpn, if_false]
  have h1 : (max ((l.length : Int) + ((p : Int) - 32)) 0).toNat
      = l.length + p - 32 := by omega
  have h2 : (min (p : Int) (l.length : Int)).toNat = p := by omega
  rw [h1, h2]
  apply List.drop_eq_nil_of_le
  rw [List.length_take]
  omega

theorem bufferToBigIntE_ok (l : List Nat) (h : l ≠ []) :
    bufferToBigIntE l = .ok (bufferToBigInt l) := by
  have hni : ¬(l.isEmpty = true) := by simpa [List.isEmpty_iff] using h
  rw [bufferToBigIntE, if_neg hni]

set_option maxHeartbeats 1000000 in
theorem hashPackedLoop_ok (bytes : List Nat) :
    ∀ (n p : Nat), 24 * n + 8 ≤ p → p ≤ bytes.length →
      hashPackedLoop bytes n (p : Int)
        = .ok ((List.range n).map
            (fun i => reverseChunks
              (bufferToBigInt ((bytes.drop (p - 24 * i - 32)).take 32)))) := by
  intro n
  induction n with
  | zero => intro p _ _; rfl
  | succ m ih =>
    intro p hp hle
    have h32 : 32 ≤ p := by omega
    have hcast : (p : Int) - 32 = ((p - 32 : Nat) : Int) := by omega
    have hslice : jsSlice bytes ((p : Int) - 32) (p : Int)
        = (bytes.drop (p - 32)).take 32 := by
      rw [hcast, jsSlice_eq_drop_take bytes (p - 32) p (by omega) hle]
      congr 1
      omega
    have hne : (bytes.drop (p - 32)).take 32 ≠ [] := by
      intro hemp
      have hlen := congrArg List.length hemp
      rw [List.length_take, List.length_drop, List.length_nil] at hlen
      omega
    have hcast24 : (p : Int) - 24 = ((p - 24 : Nat) : Int) := by omega
    rw [hashPackedLoop, hslice, bufferToBigIntE_ok _ hne, hcast24,
      ih (p - 24) (by omega) (by omega)]
    show Except.ok _ = _
    rw [List.range_succ_eq_map, List.map_cons]
    refine congrArg Except.ok (List.cons_eq_cons.mpr ⟨?_, ?_⟩)
    · have : p - 24 * 0 - 32 = p - 32 := by omega
      rw [this]
    · rw [List.map_map]
      apply List.map_congr_left
      intro i _
      simp only [Function.comp_apply]
      have hidx : p - 24 - 24 * i - 32 = p - 24 * (i + 1) - 32 := by omega
      rw [hidx]

deriving instance DecidableEq for Except

/-- C2 (amended, success case): for every modulus byte sequence of at least
128 bytes, `hashPacked` succeeds and equals the reference algorithm worded by
the specification, for any external ZK-friendly hash `poseidon`. -/
theorem hashPacked_eq_spec (poseidon : List Nat → Nat) (bytes : List Nat)
    (h : 128 ≤ bytes.length) :
    hashPacked poseidon bytes = .ok (specDeriveKey poseidon bytes) := by
  unfold hashPacked
  rw [if_neg (by omega)]
  rw [hashPackedLoop_ok bytes 5 bytes.length (by omega) le_rfl]
  show Except.ok _ = _
  unfold specDeriveKey
  refine congrArg Except.ok (congrArg poseidon (List.map_congr_left ?_))
  intro i _
  rw [reverseChunks_eq_specReversed]
  rfl

theorem hashPackedLoop_step (bytes : List Nat) (n p : Nat)
    (h32 : 32 ≤ p) (hle : p ≤ bytes.length) :
    hashPackedLoop bytes (n + 1) (p : Int)
      = match hashPackedLoop bytes n ((p - 24 : Nat) : Int) with
        | .error e => .error e
        | .ok rest => .ok (reverseChunks
            (bufferToBigInt ((bytes.drop (p - 32)).take 32)) :: rest) := by
  have hcast : (p : Int) - 32 = ((p - 32 : Nat) : Int) := by omega
  have hslice : jsSlice bytes ((p : Int) - 32) (p : Int)
      = (bytes.drop (p - 32)).take 32 := by
    rw [hcast, jsSlice_eq_drop_take bytes (p - 32) p (by omega) hle]
    congr 1
    omega
  have hne : (bytes.drop (p - 32)).take 32 ≠ [] := by
    intro hemp
    have hlen := congrArg List.length hemp
    rw [List.length_take, List.length_drop, List.length_nil] at hlen
    omega
  have hcast24 : (p : Int) - 24 = ((p - 24 : Nat) : Int) := by omega
  rw [hashPackedLoop, hslice, bufferToBigIntE_ok _ hne, hcast24]

theorem hashPackedLoop_err (bytes : List Nat) (n p : Nat)
    (hp : p < 32) (hlen : 32 ≤ bytes.length) :
    hashPackedLoop bytes (n + 1) (p : Int) = .error .syntaxError := by
  rw [hashPackedLoop,
    jsSlice_neg_start_empty bytes p hp hlen (by omega)]
  rfl

theorem hashPacked_mid_error (poseidon : List Nat → Nat) (bytes : List Nat)
    (h1 : 120 ≤ bytes.length) (h2 : bytes.length < 128) :
    hashPacked poseidon bytes = .error .syntaxError := by
  unfold hashPacked
  rw [if_neg (by omega)]
  rw [hashPackedLoop_step bytes 4 bytes.length (by omega) le_rfl]
  rw [hashPackedLoop_step bytes 3 (bytes.length - 24) (by omega) (by omega)]
  rw [hashPackedLoop_step bytes 2 (bytes.length - 24 - 24) (by omega) (by omega)]
  rw [hashPackedLoop_step bytes 1 (bytes.length - 24 - 24 - 24) (by omega) (by omega)]
  rw [hashPackedLoop_err bytes 0 (bytes.length - 24 - 24 - 24 - 24) (by omega) (by omega)]

/-- C3 (amended): `hashPacked` raises `InvalidModulusLength` exactly when the
modulus is shorter than 120 bytes; it succeeds (deterministically — it is a
pure function of its byte input) for every modulus of at least 128 bytes; and
for the lengths 120–127 it does not succeed: the fifth 32-byte window would
start before the beginning of the buffer, the negative `slice` start wraps
around and produces an empty slice, and `BigInt('0x')` throws a `SyntaxError`
instead. -/
theorem hashPacked_invalidModulusLength_iff (poseidon : List Nat → Nat)
    (bytes : List Nat) :
    (hashPacked poseidon bytes = .error .invalidModulusLength
      ↔ bytes.length < 120) ∧
    (128 ≤ bytes.length →
      hashPacked poseidon bytes = .ok (specDeriveKey poseidon bytes)) ∧
    (120 ≤ bytes.length → bytes.length < 128 →
      hashPacked poseidon bytes = .error .syntaxError) := by
  refine ⟨⟨?_, ?_⟩, hashPacked_eq_spec poseidon bytes, hashPacked_mid_error poseidon bytes⟩
  · intro h
    by_contra hge
    push_neg at hge
    rcases lt_or_ge bytes.length 128 with hlt | hge128
    · rw [hashPacked_mid_error poseidon bytes hge hlt] at h
      simp at h
    · rw [hashPacked_eq_spec poseidon bytes hge128] at h
      exact Except.noConfusion h
  · intro h
    unfold hashPacked
    rw [if_pos h]

set_option maxRecDepth 200000 in
/-- C3, counterexample to the claim as stated: a 120-byte modulus satisfies
the claim's length bound but `hashPacked` fails (with a `SyntaxError` from the
out-of-range fifth window) instead of succeeding. -/
theorem hashPacked_120_counterexample :
    120 ≤ (List.replicate 120 0).length ∧
      hashPacked (fun _ => 0) (List.replicate 120 0) = .error .syntaxError := by
  constructor
  · decide
  · decide

set_option maxRecDepth 200000 in
/-- Witness: the amended C3 theorem applied at lengths 119 and 128. -/
theorem hashPacked_invalidModulusLength_iff_witness :
    hashPacked (fun _ => 0) (List.replicate 119 0)
      = .error .invalidModulusLength ∧
    hashPacked (fun _ => 0) (List.replicate 128 0)
      = .ok (specDeriveKey (fun _ => 0) (List.replicate 128 0)) := by
  constructor
  · exact (hashPacked_invalidModulusLength_iff (fun _ => 0)
      (List.replicate 119 0)).1.mpr (by decide)
  · exact (hashPacked_invalidModulusLength_iff (fun _ => 0)
      (List.replicate 128 0)).2.1 (by decide)

set_option maxRecDepth 200000 in
/-- C2, counterexample to the claim as stated: at length 120 the code throws
while the reference algorithm yields a value, so the two disagree on a
sequence of "at least 120" bytes. -/
theorem hashPacked_spec_counterexample :
    hashPacked (fun _ => 0) (List.replicate 120 1)
      ≠ .ok (specDeriveKey (fun _ => 0) (List.replicate 120 1)) := by
  decide

set_option maxRecDepth 200000 in
/-- Witness: the amended C2 theorem applied to a concrete 128-byte sequence
with a concrete stand-in for the external hash. -/
theorem hashPacked_eq_spec_witness :
    128 ≤ (List.replicate 128 1).length ∧
      hashPacked (fun l => l.sum) (List.replicate 128 1)
        = .ok (specDeriveKey (fun l => l.sum) (List.replicate 128 1)) :=
  ⟨by decide, hashPacked_eq_spec (fun l => l.sum) (List.replicate 128 1) (by decide)⟩

/-- C10: the registry-key derivation reads only the final 128 bytes of its
input — the five 32-byte windows, stepped back 24 bytes each, cover exactly
byte positions `len-128` through `len-1` — so two modulus byte sequences of
length at least 128 that agree on their last 128 bytes derive the same key. -/
theorem hashPacked_last_128 (poseidon : List Nat → Nat) (m1 m2 : List Nat)
    (h1 : 128 ≤ m1.length) (h2 : 128 ≤ m2.length)
    (hsuf : m1.drop (m1.length - 128) = m2.drop (m2.length - 128)) :
    hashPacked poseidon m1 = hashPacked poseidon m2 := by
  rw [hashPacked_eq_spec poseidon m1 h1, hashPacked_eq_spec poseidon m2 h2]
  unfold specDeriveKey
  refine congrArg Except.ok (congrArg poseidon (List.map_congr_left ?_))
  intro i hi
  have hi5 : i < 5 := List.mem_range.mp hi
  have hw : ∀ m : List Nat, 128 ≤ m.length →
      specWindow m i = ((m.drop (m.length - 128)).drop (96 - 24 * i)).take 32 := by
    intro m hm
    unfold specWindow
    rw [List.drop_drop]
    have hidx : m.length - 24 * i - 32 = m.length - 128 + (96 - 24 * i) := by
      omega
    rw [hidx]
  rw [hw m1 h1, hw m2 h2, hsuf]

set_option maxRecDepth 200000 in
/-- Witness: the C10 theorem applied to two concrete sequences of lengths 128
and 129 agreeing on their final 128 bytes. -/
theorem hashPacked_last_128_witness :
    hashPacked (fun l => l.sum) (List.replicate 128 7)
      = hashPacked (fun l => l.sum) (9 :: List.replicate 128 7) :=
  hashPacked_last_128 (fun l => l.sum) (List.replicate 128 7)
    (9 :: List.replicate 128 7) (by decide) (by decide) (by decide)

/-! ### Authentication Engine (part_001): `generateAASignature` and
`authenticate` -/

/-- `src.copy(dst, pos)` on Node buffers: overwrite `dst` from index `pos`
with as much of `src` as fits; the length of `dst` never changes. -/
def bufWrite (dst : List Nat) (pos : Nat) (src : List Nat) : List Nat :=
  dst.take pos ++ src.take (dst.length - pos)
    ++ dst.drop (pos + (src.take (dst.length - pos)).length)

/-- The ISO-9796-2 message assembly of `generateAASignature`:
`Buffer.alloc(RSA_SIZE)`, header byte `0x01` at index 0, `prepared` copied at
index 1, the digest copied at index `1 + preparedLen`, and the trailer bytes
`0x34 0xCC` at the last two indices. -/
def buildAAMessage (RSA_SIZE preparedLen : Nat) (prepared digest : List Nat) :
    List Nat :=
  ((bufWrite (bufWrite ((List.replicate RSA_SIZE 0).set 0 0x01) 1 prepared)
      (1 + preparedLen) digest).set
    (RSA_SIZE - 2) 0x34).set (RSA_SIZE - 1) 0xCC

/-- `generateAASignature(challengeHex, dg15Data, privateKeyPEM)` (part_001),
with its external collaborators factored out: `modulusBytes` stands for the
result of `extractModulusFromDG15(dg15Data)` (a `crypto.createPublicKey`
call), `d` for the private exponent read from the key's JWK export,
`prepared` for the `crypto.randomBytes(preparedLen)` output, `challenge` for
the decoded challenge hex, and `sha256` for `crypto.createHash('sha256')`.
The message `0x01 ‖ prepared ‖ SHA-256(prepared ‖ challenge) ‖ 0x34 0xCC` is
signed by raw modular exponentiation, `message ^ d mod modulus`, and returned
as an `RSA_SIZE`-byte big-endian sequence. -/
def generateAASignature (challenge modulusBytes prepared : List Nat) (d : Nat)
    (sha256 : List Nat → List Nat) : Except JsError (List Nat) :=
  match bufferToBigIntE modulusBytes with
  | .error e => .error e
  | .ok modulus =>
    let RSA_SIZE := modulusBytes.length
    let preparedLen := RSA_SIZE - 2 - 32 - 1
    let digest := sha256 (prepared ++ challenge)
    let message := buildAAMessage RSA_SIZE preparedLen prepared digest
    match bufferToBigIntE message with
    | .error e => .error e
    | .ok messageBigInt =>
      .ok (bigIntToBuffer (modPow messageBigInt d modulus) RSA_SIZE)

/-- `authenticate(challenge, signature, publicKeyDER, isSha1)` (part_001):
verify an Active-Authentication signature with the contract logic.  As with
signing, the modulus extraction from the DG15 public-key object is an
external `crypto` call performed on the same DG15 by both parties, so the
embedding takes the extracted modulus bytes; `sha1`/`sha256` stand for
`crypto.createHash`.  Returns `Except` to record that the only
early exit — `ok false` for an empty signature or public key — happens
before any fallible conversion. -/
def authenticate (challenge signature publicKeyModulus : List Nat)
    (sha1 sha256 : List Nat → List Nat) (isSha1 : Bool) :
    Except JsError Bool :=
  let hashLen : Nat := if isSha1 then 20 else 32
  if signature.length = 0 ∨ publicKeyModulus.length = 0 then .ok false
  else
    match bufferToBigIntE publicKeyModulus with
    | .error e => .error e
    | .ok modulus =>
      match bufferToBigIntE signature with
      | .error e => .error e
      | .ok signatureBigInt =>
        let decipher := bigIntToBuffer (modPow signatureBigInt 65537 modulus)
          publicKeyModulus.length
        let suffixLen : Nat := 2
        let decipherNoSuffix :=
          jsSlice decipher 0 ((decipher.length : Int) - suffixLen)
        let preparedLen : Int := (decipherNoSuffix.length : Int) - hashLen - 1
        let prepared := jsSlice decipherNoSuffix 1 (1 + preparedLen)
        let digest := jsSlice decipherNoSuffix
          ((decipherNoSuffix.length : Int) - hashLen)
          (decipherNoSuffix.length : Int)
        let expectedDigest := (if isSha1 then sha1 else sha256)
          (prepared ++ challenge)
        .ok (digest == expectedDigest)

/-- C7: `authenticate` called with an empty signature or an empty public-key
byte sequence returns `false` and never throws, for every challenge, hash
choice, and hash length: the emptiness guard precedes every fallible
conversion. -/
theorem authenticate_empty (challenge signature modulus : List Nat)
    (sha1 sha256 : List Nat → List Nat) (isSha1 : Bool)
    (h : signature = [] ∨ modulus = []) :
    authenticate challenge signature modulus sha1 sha256 isSha1 = .ok false := by
  unfold authenticate
  rcases h with h | h <;> subst h <;> simp

/-- Witness: the C7 theorem applied to an empty signature with a non-empty
modulus, and to a non-empty signature with an empty modulus. -/
theorem authenticate_empty_witness :
    authenticate [1, 2] [] [3] (fun _ => []) (fun _ => []) false = .ok false ∧
    authenticate [1, 2] [9] [] (fun _ => []) (fun _ => []) true = .ok false :=
  ⟨authenticate_empty [1, 2] [] [3] (fun _ => []) (fun _ => []) false (Or.inl rfl),
   authenticate_empty [1, 2] [9] [] (fun _ => []) (fun _ => []) true (Or.inr rfl)⟩

/-! ### RSA correctness: Fermat and the Chinese remainder argument -/

theorem pow_modEq_self_of_prime (p e m : Nat) (hp : p.Prime) (he0 : 0 < e)
    (he : e ≡ 1 [MOD p - 1]) : m ^ e ≡ m [MOD p] := by
  haveI : Fact p.Prime := ⟨hp⟩
  have h1 : ((m : ZMod p)) ^ e = (m : ZMod p) := by
    by_cases hz : (m : ZMod p) = 0
    · rw [hz, zero_pow (by omega : e ≠ 0)]
    · obtain ⟨t, ht⟩ : ∃ t, e = (p - 1) * t + 1 := by
        have hdvd : (p - 1) ∣ (e - 1) :=
          (Nat.modEq_iff_dvd' (by omega)).mp he.symm
        obtain ⟨t, ht⟩ := hdvd
        exact ⟨t, by omega⟩
      rw [ht, pow_add, pow_mul, pow_one,
        ZMod.pow_card_sub_one_eq_one hz, one_pow, one_mul]
  have h2 : ((m ^ e : Nat) : ZMod p) = ((m : Nat) : ZMod p) := by
    push_cast
    exact h1
  exact (ZMod.natCast_eq_natCast_iff _ _ _).mp h2

theorem rsa_roundtrip (p q E m : Nat) (hp : p.Prime) (hq : q.Prime)
    (hpq : p ≠ q) (hm : m < p * q) (hE0 : 0 < E)
    (hkey : E ≡ 1 [MOD Nat.lcm (p - 1) (q - 1)]) :
    m ^ E % (p * q) = m := by
  have hco : Nat.Coprime p q := (Nat.coprime_primes hp hq).mpr hpq
  have hmp : m ^ E ≡ m [MOD p] :=
    pow_modEq_self_of_prime p E m hp hE0
      ((Nat.ModEq.of_dvd (Nat.dvd_lcm_left _ _)) hkey)
  have hmq : m ^ E ≡ m [MOD q] :=
    pow_modEq_self_of_prime q E m hq hE0
      ((Nat.ModEq.of_dvd (Nat.dvd_lcm_right _ _)) hkey)
  have hpq' : m ^ E ≡ m [MOD p * q] :=
    (Nat.modEq_and_modEq_iff_modEq_mul hco).mp ⟨hmp, hmq⟩
  calc m ^ E % (p * q) = m % (p * q) := hpq'
    _ = m := Nat.mod_eq_of_lt hm

theorem bufWrite_append (x y src : List Nat) (pos : Nat)
    (hpos : pos = x.length) (h : src.length ≤ y.length) :
    bufWrite (x ++ y) pos src = x ++ src ++ y.drop src.length := by
  subst hpos
  unfold bufWrite
  have h1 : (x ++ y).length - x.length = y.length := by
    rw [List.length_append]; omega
  rw [h1, List.take_of_length_le h, List.take_left, List.drop_append]

theorem set_two_tail (s : List Nat) (k : Nat) (hs : s.length = k - 2)
    (hk : 2 ≤ k) :
    ((s ++ List.replicate 2 0).set (k - 2) 0x34).set (k - 1) 0xCC
      = s ++ [0x34, 0xCC] := by
  rw [List.set_append_right _ _ (by omega)]
  have h1 : k - 2 - s.length = 0 := by omega
  rw [h1]
  show ((s ++ [0x34, 0]).set (k - 1) 0xCC) = s ++ [0x34, 0xCC]
  rw [List.set_append_right _ _ (by omega)]
  have h2 : k - 1 - s.length = 1 := by omega
  rw [h2]
  rfl

theorem buildAAMessage_eq (k : Nat) (prepared digest : List Nat)
    (hk : 35 ≤ k) (hp : prepared.length = k - 35) (hd : digest.length = 32) :
    buildAAMessage k (k - 35) prepared digest
      = 0x01 :: (prepared ++ digest ++ [0x34, 0xCC]) := by
  unfold buildAAMessage
  have hrep : List.replicate k (0 : Nat) = 0 :: List.replicate (k - 1) 0 := by
    conv_lhs => rw [show k = (k - 1) + 1 by omega]
    rw [List.replicate_succ]
  rw [hrep]
  show ((bufWrite (bufWrite ([0x01] ++ List.replicate (k - 1) 0) 1 prepared)
      (1 + (k - 35)) digest).set (k - 2) 0x34).set (k - 1) 0xCC = _
  rw [bufWrite_append [0x01] (List.replicate (k - 1) 0) prepared 1 rfl
    (by rw [List.length_replicate]; omega)]
  rw [List.drop_replicate, hp]
  have h34 : k - 1 - (k - 35) = 34 := by omega
  rw [h34]
  rw [bufWrite_append ([0x01] ++ prepared) (List.replicate 34 0) digest
    (1 + (k - 35)) (by rw [List.length_append, List.length_singleton, hp])
    (by rw [List.length_replicate]; omega)]
  rw [List.drop_replicate, hd]
  have h2 : (34 : Nat) - 32 = 2 := by omega
  rw [h2]
  rw [set_two_tail ([0x01] ++ prepared ++ digest) k
    (by rw [List.length_append, List.length_append, List.length_singleton,
      hp, hd]; omega) (by omega)]
  simp

theorem jsSlice_zero_eq_take (l : List Nat) (e : Nat) (he : e ≤ l.length) :
    jsSlice l 0 (e : Int) = l.take e := by
  have h := jsSlice_eq_drop_take l 0 e (by omega) he
  simpa using h

theorem jsSlice_one_eq (l : List Nat) (e : Nat) (he : e ≤ l.length)
    (h1 : 1 ≤ e) :
    jsSlice l 1 (e : Int) = (l.drop 1).take (e - 1) := by
  have h := jsSlice_eq_drop_take l 1 e h1 he
  simpa using h

/-- C1: for every RSA key pair over two distinct primes whose modulus
dominates the message space (any modulus of `k ≥ 35` bytes with
`2^(8k-7) ≤ n`, which covers every 2048-bit modulus at `k = 256` since
`2^2047 ≥ 2^2041`), every positive private exponent `d` inverse to `65537`
modulo `lcm(p-1, q-1)`, every 8-byte challenge, every choice of the random
padding bytes, and every model of SHA-256 producing 32 bytes of output,
verifying the signature produced by the Active-Authentication sign operation
with hash length 32 succeeds:
`authenticate(challenge, sign(challenge, n, d), n, 32) = true`. -/
theorem aa_sign_verify_roundtrip
    (sha1 sha256 : List Nat → List Nat)
    (p q d : Nat) (hp : p.Prime) (hq : q.Prime) (hpq : p ≠ q) (hd0 : 0 < d)
    (modulusBytes : List Nat)
    (hmbytes : ∀ b ∈ modulusBytes, b < 256)
    (hmod : bufferToBigInt modulusBytes = p * q)
    (hsize : 35 ≤ modulusBytes.length)
    (hbig : 2 ^ (8 * modulusBytes.length - 7) ≤ p * q)
    (challenge prepared : List Nat)
    (hch : challenge.length = 8)
    (hplen : prepared.length = modulusBytes.length - 35)
    (hpbytes : ∀ b ∈ prepared, b < 256)
    (hsha : (sha256 (prepared ++ challenge)).length = 32)
    (hshab : ∀ b ∈ sha256 (prepared ++ challenge), b < 256)
    (hkey : 65537 * d ≡ 1 [MOD Nat.lcm (p - 1) (q - 1)]) :
    (generateAASignature challenge modulusBytes prepared d sha256).bind
      (fun sig => authenticate challenge sig modulusBytes sha1 sha256 false)
      = .ok true := by
  have hn1 : 1 < p * q := by
    have h2p := hp.two_le
    have h2q := hq.two_le
    calc 1 < 2 * 2 := by omega
      _ ≤ p * q := Nat.mul_le_mul h2p h2q
  have hmne : modulusBytes ≠ [] := by
    intro h
    rw [h] at hsize
    simp at hsize
  have hmsg0 : buildAAMessage modulusBytes.length
      (modulusBytes.length - 2 - 32 - 1) prepared (sha256 (prepared ++ challenge))
      = 0x01 :: (prepared ++ sha256 (prepared ++ challenge) ++ [0x34, 0xCC]) := by
    have h35 : modulusBytes.length - 2 - 32 - 1 = modulusBytes.length - 35 := by
      omega
    rw [h35]
    exact buildAAMessage_eq modulusBytes.length prepared _ hsize hplen hsha
  set digest := sha256 (prepared ++ challenge) with hdigdef
  set message := 0x01 :: (prepared ++ digest ++ [0x34, 0xCC]) with hmsgdef
  have htailbytes : ∀ b ∈ prepared ++ digest ++ [0x34, 0xCC], b < 256 := by
    intro b hb
    rcases List.mem_append.mp hb with h | h
    · rcases List.mem_append.mp h with h | h
      · exact hpbytes b h
      · exact hshab b h
    · have : b = 0x34 ∨ b = 0xCC := by simpa using h
      omega
  have hmsgbytes : ∀ b ∈ message, b < 256 := by
    intro b hb
    rw [hmsgdef] at hb
    rcases List.mem_cons.mp hb with h | h
    · omega
    · exact htailbytes b h
  have htaillen : (prepared ++ digest ++ [0x34, 0xCC]).length
      = modulusBytes.length - 1 := by
    simp only [List.length_append, List.length_cons, List.length_nil]
    rw [hplen, hsha]
    omega
  have hmsglen : message.length = modulusBytes.length := by
    rw [hmsgdef, List.length_cons, htaillen]
    omega
  have hmlt : bufferToBigInt message < p * q := by
    rw [hmsgdef, bufferToBigInt_cons, htaillen]
    have htail : bufferToBigInt (prepared ++ digest ++ [0x34, 0xCC])
        < 256 ^ (modulusBytes.length - 1) := by
      rw [← htaillen]
      exact bufferToBigInt_lt _ htailbytes
    have hpow : (256 : Nat) ^ (modulusBytes.length - 1)
        = 2 ^ (8 * (modulusBytes.length - 1)) := by
      rw [show (256 : Nat) = 2 ^ 8 from rfl, ← pow_mul]
    have hsum : 2 ^ (8 * (modulusBytes.length - 1))
        + 2 ^ (8 * (modulusBytes.length - 1))
        ≤ 2 ^ (8 * modulusBytes.length - 7) := by
      have hexp : 8 * (modulusBytes.length - 1) + 1
          ≤ 8 * modulusBytes.length - 7 := by omega
      calc 2 ^ (8 * (modulusBytes.length - 1))
          + 2 ^ (8 * (modulusBytes.length - 1))
          = 2 ^ (8 * (modulusBytes.length - 1) + 1) := by ring
        _ ≤ 2 ^ (8 * modulusBytes.length - 7) :=
            Nat.pow_le_pow_right (by omega) hexp
    rw [hpow] at htail ⊢
    omega
  -- the signature value
  set sigN := modPow (bufferToBigInt message) d (p * q) with hsigNdef
  have hsigN : sigN = (bufferToBigInt message) ^ d % (p * q) := by
    rw [hsigNdef, modPow_eq _ _ _ hd0]
  have hsigNlt : sigN < p * q := by
    rw [hsigN]
    exact Nat.mod_lt _ (by omega)
  set sig := bigIntToBuffer sigN modulusBytes.length with hsigdef
  have hsiglen : sig.length = modulusBytes.length := by
    rw [hsigdef, bigIntToBuffer_length]
  -- the sign side computes `.ok sig`
  have hsign : generateAASignature challenge modulusBytes prepared d sha256
      = .ok sig := by
    unfold generateAASignature
    split
    next heq =>
      rw [bufferToBigIntE_ok _ hmne] at heq
      exact Except.noConfusion heq
    next v heq =>
      rw [bufferToBigIntE_ok _ hmne] at heq
      injection heq with hv
      subst hv
      simp only [hmsg0]
      split
      next heq2 =>
        rw [bufferToBigIntE_ok _ (by rw [hmsgdef]; exact List.cons_ne_nil _ _)]
          at heq2
        exact Except.noConfusion heq2
      next w heq2 =>
        rw [bufferToBigIntE_ok _ (by rw [hmsgdef]; exact List.cons_ne_nil _ _)]
          at heq2
        injection heq2 with hw
        subst hw
        rw [hmod, hsigdef, hsigNdef]
  rw [hsign]
  show authenticate challenge sig modulusBytes sha1 sha256 false = .ok true
  -- the verify side
  have hsigne : sig ≠ [] := by
    intro h
    rw [h] at hsiglen
    simp at hsiglen
    omega
  unfold authenticate
  rw [if_neg (by rw [hsiglen]; omega)]
  split
  next heq =>
    rw [bufferToBigIntE_ok _ hmne] at heq
    exact Except.noConfusion heq
  next v heq =>
    rw [bufferToBigIntE_ok _ hmne] at heq
    injection heq with hv
    subst hv
    split
    next heq2 =>
      rw [bufferToBigIntE_ok _ hsigne] at heq2
      exact Except.noConfusion heq2
    next w heq2 =>
      rw [bufferToBigIntE_ok _ hsigne] at heq2
      injection heq2 with hw
      subst hw
      rw [hmod]
      -- the deciphered buffer is exactly the signed message
      have hsigval : bufferToBigInt sig = sigN := by
        rw [hsigdef, bufferToBigInt_bigIntToBuffer]
        apply Nat.mod_eq_of_lt
        calc sigN < p * q := hsigNlt
          _ = bufferToBigInt modulusBytes := hmod.symm
          _ < 256 ^ modulusBytes.length := bufferToBigInt_lt _ hmbytes
      have hverify : modPow (bufferToBigInt sig) 65537 (p * q)
          = bufferToBigInt message := by
        rw [hsigval, modPow_eq _ _ _ (by omega), hsigN, ← Nat.pow_mod, ← pow_mul]
        exact rsa_roundtrip p q (d * 65537) (bufferToBigInt message) hp hq hpq
          hmlt (by positivity)
          (by rw [Nat.mul_comm]; exact hkey)
      have hdec : bigIntToBuffer (modPow (bufferToBigInt sig) 65537 (p * q))
          modulusBytes.length = message := by
        rw [hverify, ← hmsglen]
        exact bigIntToBuffer_bufferToBigInt message hmsgbytes
      simp only [hdec, hmsglen, Bool.false_eq_true, if_false, Nat.cast_ofNat]
      -- peel the ISO-9796-2 layout back off
      have hmsg_split : message = (0x01 :: (prepared ++ digest)) ++ [0x34, 0xCC] := by
        rw [hmsgdef]
        rfl
      have hdnslen : (0x01 :: (prepared ++ digest)).length
          = modulusBytes.length - 2 := by
        rw [List.length_cons, List.length_append, hplen, hsha]
        omega
      have hdns : jsSlice message 0 ((modulusBytes.length : Int) - 2)
          = 0x01 :: (prepared ++ digest) := by
        have hc : ((modulusBytes.length : Int) - 2)
            = ((modulusBytes.length - 2 : Nat) : Int) := by omega
        rw [hc, jsSlice_zero_eq_take message _ (by rw [hmsglen]; omega)]
        rw [hmsg_split, ← hdnslen, List.take_left]
      simp only [hdns, hdnslen]
      have hidx1 : (1 : Int) + (((modulusBytes.length - 2 : Nat) : Int) - 32 - 1)
          = ((modulusBytes.length - 34 : Nat) : Int) := by
        push_cast
        omega
      have hprep : jsSlice (0x01 :: (prepared ++ digest)) 1
          (((modulusBytes.length - 34 : Nat) : Int)) = prepared := by
        rw [jsSlice_one_eq _ _ (by rw [hdnslen]; omega) (by omega)]
        show ((prepared ++ digest).take (modulusBytes.length - 34 - 1)) = prepared
        have h35 : modulusBytes.length - 34 - 1 = modulusBytes.length - 35 := by
          omega
        rw [h35, ← hplen, List.take_left]
      have hidx2 : (((modulusBytes.length - 2 : Nat) : Int) - 32)
          = ((modulusBytes.length - 34 : Nat) : Int) := by
        push_cast
        omega
      have hdig : jsSlice (0x01 :: (prepared ++ digest))
          ((modulusBytes.length - 34 : Nat) : Int)
          ((modulusBytes.length - 2 : Nat) : Int) = digest := by
        rw [jsSlice_eq_drop_take _ _ _ (by omega) (by rw [hdnslen])]
        have h1 : modulusBytes.length - 34 = (modulusBytes.length - 35) + 1 := by
          omega
        rw [h1, List.drop_succ_cons, ← hplen, List.drop_left]
        have h2 : modulusBytes.length - 2 - (prepared.length + 1)
            = 32 := by
          rw [hplen]
          omega
        rw [h2]
        exact List.take_of_length_le (by rw [hsha])
      have hidx1' : (1 : Int) + (((modulusBytes.length - 34 : Nat) : Int) - 1)
          = ((modulusBytes.length - 34 : Nat) : Int) := by omega
      simp only [Bool.false_eq_true, if_false, Nat.cast_ofNat, hidx1, hidx2,
        hidx1', hdig]
      rw [hprep, ← hdigdef]
      simp

/-! ### A concrete RSA instance for the sign/verify round trip

`c1p = 3 * 2^276 + 1` is a Proth prime (certified below via Pocklington /
Lucas with witness 19); together with `q = 3` it gives a 280-bit modulus
`n = 9 * 2^276 + 3` whose 35-byte big-endian encoding is
`144 :: 0^33 :: 3`.  `c1d` is the inverse of `65537` modulo
`lcm(p - 1, q - 1) = 3 * 2^276`. -/

def c1p : Nat :=
  364250417292324200797399107529409794995451282322276160234714826826044553475976593409

def c1d : Nat :=
  235245176958281796892605926809127652821726215352742126708493519084473835702338912257

theorem zmod_pow_eq_modPow (m b n : Nat) (hn : 0 < n) :
    ((b : ZMod m)) ^ n = ((modPow b n m : Nat) : ZMod m) := by
  rw [modPow_eq b n m hn, ZMod.natCast_mod, Nat.cast_pow]

theorem zmod_natCast_ne_one (m c : Nat) (h : ¬ c % m = 1 % m) :
    ((c : ZMod m)) ≠ 1 := by
  intro hc
  rw [show (1 : ZMod m) = ((1 : Nat) : ZMod m) by rw [Nat.cast_one]] at hc
  exact h ((ZMod.natCast_eq_natCast_iff c 1 m).mp hc)

set_option maxRecDepth 100000 in
/-- `3 * 2^276 + 1` is prime, by the Lucas primality criterion with witness
`19`: `19^(p-1) = 1` in `ZMod p` while `19^((p-1)/2)` and `19^((p-1)/3)`
are not `1`, and `2`, `3` are the only prime divisors of `p - 1`. -/
theorem c1p_prime : Nat.Prime c1p := by
  refine lucas_primality c1p ((19 : Nat) : ZMod c1p) ?_ ?_
  · rw [zmod_pow_eq_modPow c1p 19 (c1p - 1) (by decide)]
    rw [show modPow 19 (c1p - 1) c1p = 1 by decide]
    rw [Nat.cast_one]
  · intro r hr hdvd
    rw [show c1p - 1 = 3 * 2 ^ 276 by decide] at hdvd
    have hr23 : r = 2 ∨ r = 3 := by
      rcases (Nat.Prime.dvd_mul hr).mp hdvd with h3 | h2
      · right
        exact (Nat.prime_dvd_prime_iff_eq hr (by norm_num)).mp h3
      · left
        exact (Nat.prime_dvd_prime_iff_eq hr (by norm_num)).mp
          (hr.dvd_of_dvd_pow h2)
    rcases hr23 with h | h
    · subst h
      rw [zmod_pow_eq_modPow c1p 19 ((c1p - 1) / 2) (by decide)]
      rw [show modPow 19 ((c1p - 1) / 2) c1p = c1p - 1 by decide]
      exact zmod_natCast_ne_one c1p (c1p - 1) (by decide)
    · subst h
      rw [zmod_pow_eq_modPow c1p 19 ((c1p - 1) / 3) (by decide)]
      rw [show modPow 19 ((c1p - 1) / 3) c1p
          = 182125208646162100398699553764704897497726163834853670678837293156419291933961093120
        by decide]
      exact zmod_natCast_ne_one c1p
        182125208646162100398699553764704897497726163834853670678837293156419291933961093120
        (by decide)

set_option maxRecDepth 100000 in
/-- Witness for C1: the round trip at the concrete key pair
`p = 3 * 2^276 + 1`, `q = 3`, `d = 65537⁻¹ mod lcm(p-1, q-1)`, the 35-byte
modulus `144 :: 0^33 :: 3`, the all-zero 8-byte challenge, empty random
padding, and an all-zero model of SHA-256. -/
theorem aa_sign_verify_roundtrip_witness :
    (generateAASignature (List.replicate 8 0)
        (144 :: (List.replicate 33 0 ++ [3])) [] c1d
        (fun _ => List.replicate 32 0)).bind
      (fun sig => authenticate (List.replicate 8 0) sig
        (144 :: (List.replicate 33 0 ++ [3]))
        (fun _ => []) (fun _ => List.replicate 32 0) false)
      = .ok true :=
  aa_sign_verify_roundtrip (fun _ => []) (fun _ => List.replicate 32 0)
    c1p 3 c1d c1p_prime (by norm_num) (by decide) (by decide)
    (144 :: (List.replicate 33 0 ++ [3]))
    (by decide)
    (by decide)
    (by decide)
    (by decide)
    (List.replicate 8 0) []
    (by decide)
    (by decide)
    (by decide)
    (by decide)
    (by decide)
    (show 65537 * c1d % Nat.lcm (c1p - 1) (3 - 1)
        = 1 % Nat.lcm (c1p - 1) (3 - 1) by decide)
/-! ### DER navigation: the SOD certificate unwrapper and the certificate
signature extractor -/

theorem jsGet_at (pre : List Nat) (b : Nat) (post : List Nat) (k : Int)
    (hk : k = (pre.length : Int)) : jsGet (pre ++ b :: post) k = b := by
  subst hk
  have h := jsGet_concat pre [b] post 0 (by simp)
  simpa using h

theorem parseDERLength_at (pre bs post : List Nat) (v : Nat) (k : Int)
    (h : IsDerLen bs v) (hk : k = (pre.length : Int)) :
    parseDERLength (pre ++ bs ++ post) k = ((v : Int), bs.length) := by
  subst hk
  exact parseDERLength_spec pre bs post v h

/-- `extractSignatureFromCert` (part_004), from the point where the DER
certificate bytes are in hand: reading the PEM file and re-encoding to DER
are external `fs` / `crypto.X509Certificate` calls, so the embedding takes
`certDER` directly.  The four inlined long-form length loops of the source
are letter-for-letter the body of `parseDERLength`, so the embedding reuses
it; the source's running `offset++` increments sum to `offset + bytesRead`.
The non-zero `unusedBits` case only logs a `console.warn` and falls
through. -/
def extractSignatureFromCert (certDER : List Nat) : Except JsError (List Nat) :=
  if jsGet certDER 0 ≠ 0x30 then
    .error (.malformed "Invalid certificate: expected SEQUENCE tag")
  else
    let lenOuter := parseDERLength certDER 1
    let offset1 : Int := 1 + (lenOuter.2 : Int)
    if jsGet certDER offset1 ≠ 0x30 then
      .error (.malformed "Invalid certificate: expected tbsCertificate SEQUENCE")
    else
      let lenTbs := parseDERLength certDER (offset1 + 1)
      let offset2 : Int := offset1 + 1 + (lenTbs.2 : Int) + lenTbs.1
      if jsGet certDER offset2 ≠ 0x30 then
        .error (.malformed "Invalid certificate: expected signatureAlgorithm SEQUENCE")
      else
        let lenAlg := parseDERLength certDER (offset2 + 1)
        let offset3 : Int := offset2 + 1 + (lenAlg.2 : Int) + lenAlg.1
        if jsGet certDER offset3 ≠ 0x03 then
          .error (.malformed "Invalid certificate: expected signatureValue BIT STRING")
        else
          let lenSig := parseDERLength certDER (offset3 + 1)
          let offset4 : Int := offset3 + 1 + (lenSig.2 : Int)
          let unusedBits := jsGet certDER offset4
          let offset5 : Int := offset4 + 1
          let signatureLength : Int := lenSig.1 - 1
          .ok (jsSlice certDER offset5 (offset5 + signatureLength))

/-- C9: for every well-formed certificate byte sequence — outer SEQUENCE,
`tbsCertificate` SEQUENCE, `signatureAlgorithm` SEQUENCE, then a trailing
BIT STRING of declared length `1 + |sig|` whose first content octet is the
unused-bits byte `u` — `extractSignatureFromCert` returns the BIT STRING
content with exactly the one leading unused-bits octet removed (so the
returned length is the declared length minus 1), for EVERY value of `u`:
a non-zero unused-bits octet is warned about but does not fail. -/
theorem extractSignatureFromCert_correct
    (l0 ltbs lalg lsig tbs alg sig : List Nat) (v0 u : Nat)
    (h0 : IsDerLen l0 v0) (htbs : IsDerLen ltbs tbs.length)
    (halg : IsDerLen lalg alg.length) (hsig : IsDerLen lsig (1 + sig.length)) :
    extractSignatureFromCert
      (0x30 :: (l0 ++ 0x30 :: (ltbs ++ tbs ++ 0x30 :: (lalg ++ alg
        ++ 0x03 :: (lsig ++ u :: sig)))))
      = .ok sig := by
  set D := 0x30 :: (l0 ++ 0x30 :: (ltbs ++ tbs ++ 0x30 :: (lalg ++ alg
    ++ 0x03 :: (lsig ++ u :: sig)))) with hD
  have h1 : jsGet D 0 = 0x30 := by
    simp [hD, jsGet]
  have hp1 : parseDERLength D 1 = ((v0 : Int), l0.length) := by
    rw [show D = [0x30] ++ l0 ++ (0x30 :: (ltbs ++ tbs ++ 0x30 :: (lalg ++ alg
      ++ 0x03 :: (lsig ++ u :: sig)))) by simp [hD]]
    exact parseDERLength_at _ _ _ _ _ h0 (by simp)
  have h2 : jsGet D (1 + (l0.length : Int)) = 0x30 := by
    rw [show D = (0x30 :: l0) ++ 0x30 :: (ltbs ++ tbs ++ 0x30 :: (lalg ++ alg
      ++ 0x03 :: (lsig ++ u :: sig))) by simp [hD]]
    exact jsGet_at _ _ _ _ (by simp; ring)
  have hp2 : parseDERLength D (1 + (l0.length : Int) + 1)
      = ((tbs.length : Int), ltbs.length) := by
    rw [show D = (0x30 :: (l0 ++ [0x30])) ++ ltbs ++ (tbs ++ 0x30 :: (lalg ++ alg
      ++ 0x03 :: (lsig ++ u :: sig))) by simp [hD]]
    exact parseDERLength_at _ _ _ _ _ htbs (by simp; push_cast; ring)
  have h3 : jsGet D (1 + (l0.length : Int) + 1 + (ltbs.length : Int)
      + (tbs.length : Int)) = 0x30 := by
    rw [show D = (0x30 :: (l0 ++ 0x30 :: (ltbs ++ tbs))) ++ 0x30 :: (lalg ++ alg
      ++ 0x03 :: (lsig ++ u :: sig)) by simp [hD]]
    exact jsGet_at _ _ _ _ (by simp; push_cast; ring)
  have hp3 : parseDERLength D (1 + (l0.length : Int) + 1 + (ltbs.length : Int)
      + (tbs.length : Int) + 1) = ((alg.length : Int), lalg.length) := by
    rw [show D = (0x30 :: (l0 ++ 0x30 :: (ltbs ++ tbs ++ [0x30]))) ++ lalg
      ++ (alg ++ 0x03 :: (lsig ++ u :: sig)) by simp [hD]]
    exact parseDERLength_at _ _ _ _ _ halg (by simp; push_cast; ring)
  have h4 : jsGet D (1 + (l0.length : Int) + 1 + (ltbs.length : Int)
      + (tbs.length : Int) + 1 + (lalg.length : Int) + (alg.length : Int))
      = 0x03 := by
    rw [show D = (0x30 :: (l0 ++ 0x30 :: (ltbs ++ tbs ++ 0x30 :: (lalg ++ alg))))
      ++ 0x03 :: (lsig ++ u :: sig) by simp [hD]]
    exact jsGet_at _ _ _ _ (by simp; push_cast; ring)
  have hp4 : parseDERLength D (1 + (l0.length : Int) + 1 + (ltbs.length : Int)
      + (tbs.length : Int) + 1 + (lalg.length : Int) + (alg.length : Int) + 1)
      = (((1 + sig.length : Nat) : Int), lsig.length) := by
    rw [show D = (0x30 :: (l0 ++ 0x30 :: (ltbs ++ tbs ++ 0x30 :: (lalg ++ alg
      ++ [0x03])))) ++ lsig ++ (u :: sig) by simp [hD]]
    exact parseDERLength_at _ _ _ _ _ hsig (by simp; push_cast; ring)
  unfold extractSignatureFromCert
  simp only [h1, hp1, h2, hp2, h3, hp3, h4, hp4]
  simp only [ne_eq, not_true_eq_false, if_false, reduceIte]
  -- remaining: the slice equals sig
  have harg1 : (1 + (l0.length : Int) + 1 + (ltbs.length : Int)
      + (tbs.length : Int) + 1 + (lalg.length : Int) + (alg.length : Int) + 1
      + (lsig.length : Int) + 1)
      = ((1 + l0.length + 1 + ltbs.length + tbs.length + 1 + lalg.length
        + alg.length + 1 + lsig.length + 1 : Nat) : Int) := by
    push_cast; ring
  have harg2 : (((1 + l0.length + 1 + ltbs.length + tbs.length + 1 + lalg.length
      + alg.length + 1 + lsig.length + 1 : Nat) : Int)
      + (((1 + sig.length : Nat) : Int) - 1))
      = ((1 + l0.length + 1 + ltbs.length + tbs.length + 1 + lalg.length
        + alg.length + 1 + lsig.length + 1 + sig.length : Nat) : Int) := by
    push_cast; ring
  rw [harg1, harg2]
  rw [jsSlice_eq_drop_take D _ _ (by omega) (by simp [hD]; omega)]
  have hsplit : D = (0x30 :: (l0 ++ 0x30 :: (ltbs ++ tbs ++ 0x30 :: (lalg ++ alg
      ++ 0x03 :: (lsig ++ [u]))))) ++ sig := by
    simp [hD]
  rw [hsplit]
  have hlen : (0x30 :: (l0 ++ 0x30 :: (ltbs ++ tbs ++ 0x30 :: (lalg ++ alg
      ++ 0x03 :: (lsig ++ [u]))))).length
      = 1 + l0.length + 1 + ltbs.length + tbs.length + 1 + lalg.length
        + alg.length + 1 + lsig.length + 1 := by
    simp; ring
  rw [show (1 + l0.length + 1 + ltbs.length + tbs.length + 1 + lalg.length
        + alg.length + 1 + lsig.length + 1) = (0x30 :: (l0 ++ 0x30 :: (ltbs
        ++ tbs ++ 0x30 :: (lalg ++ alg ++ 0x03 :: (lsig ++ [u]))))).length
    from hlen.symm]
  rw [List.drop_left]
  simp

/-- A DER certificate SEQUENCE: tag `0x30`, length octets `c.1`, body
`c.2`. -/
def certBlob (c : List Nat × List Nat) : List Nat := 0x30 :: (c.1 ++ c.2)

/-- The concatenation of the certificate SEQUENCEs inside the
`certificates [0]` field. -/
def certsBlob (cs : List (List Nat × List Nat)) : List Nat :=
  (cs.map certBlob).flatten

/-- The length octets of a certificate SEQUENCE declare exactly the length
of its body. -/
def GoodCert (c : List Nat × List Nat) : Prop := IsDerLen c.1 c.2.length

/-- The certificate-skipping `while (currentIndex <= certIndex)` loop of
`extractCertificateFromSOD` (`src/utils/sod.ts`), with
`fuel = certIndex - currentIndex + 1` remaining iterations: the loop body
either throws on a non-SEQUENCE tag, returns the whole certificate slice
when `currentIndex === certIndex` (that is, when one iteration remains),
or steps `offset` past the certificate.  Fuel `0` is the normal loop exit,
which falls through to the trailing
`throw new Error('Certificate index ... not found in SOD')`; for a
non-negative `certIndex` the loop only ever exits through `return` or
`throw`, so that error is reachable only when `certIndex < 0`. -/
def scanCerts (sodData : List Nat) : Nat → Int → Except JsError (List Nat)
  | 0, _ => .error (.malformed "Certificate index not found in SOD")
  | remaining + 1, offset =>
    if jsGet sodData offset ≠ 0x30 then
      .error (.malformed "Invalid SOD: expected certificate SEQUENCE")
    else
      let lenc := parseDERLength sodData (offset + 1)
      if remaining = 0 then
        .ok (jsSlice sodData offset (offset + (1 + (lenc.2 : Int) + lenc.1)))
      else
        scanCerts sodData remaining (offset + 1 + (lenc.2 : Int) + lenc.1)

/-- `extractCertificateFromSOD(sodData, certIndex)` (`src/utils/sod.ts`):
walk the outer SEQUENCE, ContentType OID, `[0] EXPLICIT`, SignedData
SEQUENCE, the optional version INTEGER / digestAlgorithms SET /
encapContentInfo SEQUENCE, and the `certificates [0]` header, then scan
certificates; the `while` loop runs `certIndex + 1` iterations
(`(certIndex + 1).toNat` fuel, `0` when `certIndex < 0`). -/
def extractCertificateFromSOD (sodData : List Nat) (certIndex : Int) :
    Except JsError (List Nat) :=
  if jsGet sodData 0 ≠ 0x30 then
    .error (.malformed "Invalid SOD: expected SEQUENCE")
  else
    let lenOuter := parseDERLength sodData 1
    let off1 : Int := 1 + (lenOuter.2 : Int)
    if jsGet sodData off1 ≠ 0x06 then
      .error (.malformed "Invalid SOD: expected OID")
    else
      let lenOid := parseDERLength sodData (off1 + 1)
      let off2 : Int := off1 + 1 + (lenOid.2 : Int) + lenOid.1
      if jsGet sodData off2 ≠ 0xA0 then
        .error (.malformed "Invalid SOD: expected [0] EXPLICIT")
      else
        let lenExp := parseDERLength sodData (off2 + 1)
        let off3 : Int := off2 + 1 + (lenExp.2 : Int)
        if jsGet sodData off3 ≠ 0x30 then
          .error (.malformed "Invalid SOD: expected SignedData SEQUENCE")
        else
          let lenSd := parseDERLength sodData (off3 + 1)
          let off4 : Int := off3 + 1 + (lenSd.2 : Int)
          let off5 : Int :=
            if jsGet sodData off4 = 0x02 then
              let lenVer := parseDERLength sodData (off4 + 1)
              off4 + 1 + (lenVer.2 : Int) + lenVer.1
            else off4
          let off6 : Int :=
            if jsGet sodData off5 = 0x31 then
              let lenDa := parseDERLength sodData (off5 + 1)
              off5 + 1 + (lenDa.2 : Int) + lenDa.1
            else off5
          let off7 : Int :=
            if jsGet sodData off6 = 0x30 then
              let lenEc := parseDERLength sodData (off6 + 1)
              off6 + 1 + (lenEc.2 : Int) + lenEc.1
            else off6
          if jsGet sodData off7 ≠ 0xA0 then
            .error (.malformed "Invalid SOD: expected certificates [0]")
          else
            let lenCerts := parseDERLength sodData (off7 + 1)
            let off8 : Int := off7 + 1 + (lenCerts.2 : Int)
            scanCerts sodData (certIndex + 1).toNat off8

theorem jsSlice_mid (pre mid post : List Nat) (s e : Int)
    (hs : s = (pre.length : Int))
    (he : e = ((pre.length + mid.length : Nat) : Int)) :
    jsSlice (pre ++ mid ++ post) s e = mid := by
  subst hs he
  have h := jsSlice_eq_drop_take (pre ++ mid ++ post) pre.length
    (pre.length + mid.length) (by omega) (by simp)
  rw [h, List.append_assoc, List.drop_left]
  have h2 : pre.length + mid.length - pre.length = mid.length := by omega
  rw [h2, List.take_left]

theorem scanCerts_ok (cs : List (List Nat × List Nat)) :
    ∀ (i : Nat) (pre post : List Nat), (∀ c ∈ cs, GoodCert c) →
    i < cs.length →
    scanCerts (pre ++ certsBlob cs ++ post) (i + 1) (pre.length : Int)
      = .ok (certBlob (cs.getD i ([], []))) := by
  induction cs with
  | nil => intro i pre post _ hi; simp at hi
  | cons c cs ih =>
    intro i pre post hg hi
    have hgc : GoodCert c := hg c (by simp)
    have htag : jsGet (pre ++ certsBlob (c :: cs) ++ post)
        ((pre.length : Int)) = 0x30 := by
      rw [show pre ++ certsBlob (c :: cs) ++ post
        = pre ++ 0x30 :: (c.1 ++ (c.2 ++ (certsBlob cs ++ post)))
        by simp [certsBlob, certBlob]]
      exact jsGet_at _ _ _ _ rfl
    have hparse : parseDERLength (pre ++ certsBlob (c :: cs) ++ post)
        ((pre.length : Int) + 1) = ((c.2.length : Int), c.1.length) := by
      rw [show pre ++ certsBlob (c :: cs) ++ post
        = (pre ++ [0x30]) ++ c.1 ++ (c.2 ++ (certsBlob cs ++ post))
        by simp [certsBlob, certBlob]]
      exact parseDERLength_at _ _ _ _ _ hgc (by simp)
    cases i with
    | zero =>
      rw [scanCerts]
      simp only [htag, hparse, ne_eq, not_true_eq_false, if_false, reduceIte,
        List.getD_cons_zero]
      rw [show pre ++ certsBlob (c :: cs) ++ post
        = pre ++ certBlob c ++ (certsBlob cs ++ post)
        by simp [certsBlob, certBlob]]
      rw [jsSlice_mid _ _ _ _ _ rfl (by simp [certBlob]; push_cast; ring)]
    | succ j =>
      rw [scanCerts]
      simp only [htag, hparse, ne_eq, not_true_eq_false, if_false, reduceIte,
        Nat.succ_ne_zero, List.getD_cons_succ]
      rw [show pre ++ certsBlob (c :: cs) ++ post
        = (pre ++ certBlob c) ++ certsBlob cs ++ post
        by simp [certsBlob, certBlob]]
      rw [show (pre.length : Int) + 1 + (c.1.length : Int) + (c.2.length : Int)
        = (((pre ++ certBlob c).length : Nat) : Int)
        by simp [certBlob]; push_cast; ring]
      exact ih j (pre ++ certBlob c) post (fun x hx => hg x (by simp [hx]))
        (by simpa using hi)

theorem scanCerts_err (cs : List (List Nat × List Nat)) :
    ∀ (i : Nat) (pre post : List Nat) (hd : Nat), (∀ c ∈ cs, GoodCert c) →
    hd ≠ 0x30 → cs.length ≤ i →
    scanCerts (pre ++ certsBlob cs ++ (hd :: post)) (i + 1) (pre.length : Int)
      = .error (.malformed "Invalid SOD: expected certificate SEQUENCE") := by
  induction cs with
  | nil =>
    intro i pre post hd _ hne _
    have htag : jsGet (pre ++ certsBlob [] ++ (hd :: post))
        ((pre.length : Int)) = hd := by
      rw [show pre ++ certsBlob [] ++ (hd :: post) = pre ++ hd :: post
        by simp [certsBlob]]
      exact jsGet_at _ _ _ _ rfl
    rw [scanCerts]
    simp only [htag, ne_eq, hne, not_false_eq_true, if_true]
  | cons c cs ih =>
    intro i pre post hd hg hne hi
    have hgc : GoodCert c := hg c (by simp)
    have htag : jsGet (pre ++ certsBlob (c :: cs) ++ (hd :: post))
        ((pre.length : Int)) = 0x30 := by
      rw [show pre ++ certsBlob (c :: cs) ++ (hd :: post)
        = pre ++ 0x30 :: (c.1 ++ (c.2 ++ (certsBlob cs ++ (hd :: post))))
        by simp [certsBlob, certBlob]]
      exact jsGet_at _ _ _ _ rfl
    have hparse : parseDERLength (pre ++ certsBlob (c :: cs) ++ (hd :: post))
        ((pre.length : Int) + 1) = ((c.2.length : Int), c.1.length) := by
      rw [show pre ++ certsBlob (c :: cs) ++ (hd :: post)
        = (pre ++ [0x30]) ++ c.1 ++ (c.2 ++ (certsBlob cs ++ (hd :: post)))
        by simp [certsBlob, certBlob]]
      exact parseDERLength_at _ _ _ _ _ hgc (by simp)
    cases i with
    | zero => simp at hi
    | succ j =>
      rw [scanCerts]
      simp only [htag, hparse, ne_eq, not_true_eq_false, if_false, reduceIte,
        Nat.succ_ne_zero]
      rw [show pre ++ certsBlob (c :: cs) ++ (hd :: post)
        = (pre ++ certBlob c) ++ certsBlob cs ++ (hd :: post)
        by simp [certsBlob, certBlob]]
      rw [show (pre.length : Int) + 1 + (c.1.length : Int) + (c.2.length : Int)
        = (((pre ++ certBlob c).length : Nat) : Int)
        by simp [certBlob]; push_cast; ring]
      exact ih j (pre ++ certBlob c) post hd
        (fun x hx => hg x (by simp [hx])) hne (by simpa using hi)

/-- C8: for every well-formed SOD — outer SEQUENCE, OID, `[0] EXPLICIT`,
SignedData with version INTEGER, digestAlgorithms SET and encapContentInfo
SEQUENCE present, and a `certificates [0]` field holding the certificate
SEQUENCEs of `cs`, followed by at least one byte that is not `0x30` (in a
real SOD the `signerInfos` SET follows) — requesting index `i < |cs|`
returns the `i`-th certificate SEQUENCE sliced whole, while requesting
`i ≥ |cs|` throws the `expected certificate SEQUENCE` error: the scan walks
past the last certificate and checks the tag there.  The
`Certificate index not found in SOD` error is NOT raised for any
out-of-range non-negative index. -/
theorem extractCertificateFromSOD_correct
    (l0 loid lexp lsd lver lda lec lcerts oid ver da ec post : List Nat)
    (v0 vexp vsd vcerts : Nat) (hd : Nat)
    (cs : List (List Nat × List Nat)) (i : Nat)
    (h0 : IsDerLen l0 v0) (hoid : IsDerLen loid oid.length)
    (hexp : IsDerLen lexp vexp) (hsd : IsDerLen lsd vsd)
    (hver : IsDerLen lver ver.length) (hda : IsDerLen lda da.length)
    (hec : IsDerLen lec ec.length) (hcerts : IsDerLen lcerts vcerts)
    (hcs : ∀ c ∈ cs, GoodCert c) (hph : hd ≠ 0x30) :
    extractCertificateFromSOD
      (0x30 :: (l0 ++ 0x06 :: (loid ++ oid ++ 0xA0 :: (lexp ++ 0x30 ::
        (lsd ++ 0x02 :: (lver ++ ver ++ 0x31 :: (lda ++ da ++ 0x30 ::
        (lec ++ ec ++ 0xA0 :: (lcerts ++ certsBlob cs ++ hd :: post)))))))))
      (i : Int)
      = if i < cs.length then .ok (certBlob (cs.getD i ([], [])))
        else .error (.malformed "Invalid SOD: expected certificate SEQUENCE") := by
  set D := 0x30 :: (l0 ++ 0x06 :: (loid ++ oid ++ 0xA0 :: (lexp ++ 0x30 ::
    (lsd ++ 0x02 :: (lver ++ ver ++ 0x31 :: (lda ++ da ++ 0x30 ::
    (lec ++ ec ++ 0xA0 :: (lcerts ++ certsBlob cs ++ hd :: post)))))))) with hD
  have h1 : jsGet D 0 = 0x30 := by
    simp [hD, jsGet]
  have hp1 : parseDERLength D 1 = ((v0 : Int), l0.length) := by
    rw [show D = [0x30] ++ l0 ++ (0x06 :: (loid ++ oid ++ 0xA0 :: (lexp ++ 0x30 ::
      (lsd ++ 0x02 :: (lver ++ ver ++ 0x31 :: (lda ++ da ++ 0x30 ::
      (lec ++ ec ++ 0xA0 :: (lcerts ++ certsBlob cs ++ hd :: post))))))))
      by simp [hD]]
    exact parseDERLength_at _ _ _ _ _ h0 (by simp)
  have h2 : jsGet D (1 + (l0.length : Int)) = 0x06 := by
    rw [show D = (0x30 :: l0) ++ 0x06 :: (loid ++ oid ++ 0xA0 :: (lexp ++ 0x30 ::
      (lsd ++ 0x02 :: (lver ++ ver ++ 0x31 :: (lda ++ da ++ 0x30 ::
      (lec ++ ec ++ 0xA0 :: (lcerts ++ certsBlob cs ++ hd :: post)))))))
      by simp [hD]]
    exact jsGet_at _ _ _ _ (by simp; ring)
  have hp2 : parseDERLength D (1 + (l0.length : Int) + 1)
      = ((oid.length : Int), loid.length) := by
    rw [show D = (0x30 :: (l0 ++ [0x06])) ++ loid ++ (oid ++ 0xA0 :: (lexp ++ 0x30 ::
      (lsd ++ 0x02 :: (lver ++ ver ++ 0x31 :: (lda ++ da ++ 0x30 ::
      (lec ++ ec ++ 0xA0 :: (lcerts ++ certsBlob cs ++ hd :: post)))))))
      by simp [hD]]
    exact parseDERLength_at _ _ _ _ _ hoid (by simp; ring)
  have h3 : jsGet D (1 + (l0.length : Int) + 1 + (loid.length : Int)
      + (oid.length : Int)) = 0xA0 := by
    rw [show D = (0x30 :: (l0 ++ 0x06 :: (loid ++ oid))) ++ 0xA0 :: (lexp ++ 0x30 ::
      (lsd ++ 0x02 :: (lver ++ ver ++ 0x31 :: (lda ++ da ++ 0x30 ::
      (lec ++ ec ++ 0xA0 :: (lcerts ++ certsBlob cs ++ hd :: post))))))
      by simp [hD]]
    exact jsGet_at _ _ _ _ (by simp; ring)
  have hp3 : parseDERLength D (1 + (l0.length : Int) + 1 + (loid.length : Int)
      + (oid.length : Int) + 1) = ((vexp : Int), lexp.length) := by
    rw [show D = (0x30 :: (l0 ++ 0x06 :: (loid ++ oid ++ [0xA0]))) ++ lexp
      ++ (0x30 :: (lsd ++ 0x02 :: (lver ++ ver ++ 0x31 :: (lda ++ da ++ 0x30 ::
      (lec ++ ec ++ 0xA0 :: (lcerts ++ certsBlob cs ++ hd :: post))))))
      by simp [hD]]
    exact parseDERLength_at _ _ _ _ _ hexp (by simp; ring)
  have h4 : jsGet D (1 + (l0.length : Int) + 1 + (loid.length : Int)
      + (oid.length : Int) + 1 + (lexp.length : Int)) = 0x30 := by
    rw [show D = (0x30 :: (l0 ++ 0x06 :: (loid ++ oid ++ 0xA0 :: lexp)))
      ++ 0x30 :: (lsd ++ 0x02 :: (lver ++ ver ++ 0x31 :: (lda ++ da ++ 0x30 ::
      (lec ++ ec ++ 0xA0 :: (lcerts ++ certsBlob cs ++ hd :: post)))))
      by simp [hD]]
    exact jsGet_at _ _ _ _ (by simp; ring)
  have hp4 : parseDERLength D (1 + (l0.length : Int) + 1 + (loid.length : Int)
      + (oid.length : Int) + 1 + (lexp.length : Int) + 1)
      = ((vsd : Int), lsd.length) := by
    rw [show D = (0x30 :: (l0 ++ 0x06 :: (loid ++ oid ++ 0xA0 :: (lexp ++ [0x30]))))
      ++ lsd ++ (0x02 :: (lver ++ ver ++ 0x31 :: (lda ++ da ++ 0x30 ::
      (lec ++ ec ++ 0xA0 :: (lcerts ++ certsBlob cs ++ hd :: post)))))
      by simp [hD]]
    exact parseDERLength_at _ _ _ _ _ hsd (by simp; ring)
  have h5 : jsGet D (1 + (l0.length : Int) + 1 + (loid.length : Int)
      + (oid.length : Int) + 1 + (lexp.length : Int) + 1 + (lsd.length : Int))
      = 0x02 := by
    rw [show D = (0x30 :: (l0 ++ 0x06 :: (loid ++ oid ++ 0xA0 :: (lexp ++ 0x30 :: lsd))))
      ++ 0x02 :: (lver ++ ver ++ 0x31 :: (lda ++ da ++ 0x30 ::
      (lec ++ ec ++ 0xA0 :: (lcerts ++ certsBlob cs ++ hd :: post))))
      by simp [hD]]
    exact jsGet_at _ _ _ _ (by simp; ring)
  have hp5 : parseDERLength D (1 + (l0.length : Int) + 1 + (loid.length : Int)
      + (oid.length : Int) + 1 + (lexp.length : Int) + 1 + (lsd.length : Int) + 1)
      = ((ver.length : Int), lver.length) := by
    rw [show D = (0x30 :: (l0 ++ 0x06 :: (loid ++ oid ++ 0xA0 :: (lexp ++ 0x30 ::
      (lsd ++ [0x02]))))) ++ lver ++ (ver ++ 0x31 :: (lda ++ da ++ 0x30 ::
      (lec ++ ec ++ 0xA0 :: (lcerts ++ certsBlob cs ++ hd :: post))))
      by simp [hD]]
    exact parseDERLength_at _ _ _ _ _ hver (by simp; ring)
  have h6 : jsGet D (1 + (l0.length : Int) + 1 + (loid.length : Int)
      + (oid.length : Int) + 1 + (lexp.length : Int) + 1 + (lsd.length : Int) + 1
      + (lver.length : Int) + (ver.length : Int)) = 0x31 := by
    rw [show D = (0x30 :: (l0 ++ 0x06 :: (loid ++ oid ++ 0xA0 :: (lexp ++ 0x30 ::
      (lsd ++ 0x02 :: (lver ++ ver)))))) ++ 0x31 :: (lda ++ da ++ 0x30 ::
      (lec ++ ec ++ 0xA0 :: (lcerts ++ certsBlob cs ++ hd :: post)))
      by simp [hD]]
    exact jsGet_at _ _ _ _ (by simp; ring)
  have hp6 : parseDERLength D (1 + (l0.length : Int) + 1 + (loid.length : Int)
      + (oid.length : Int) + 1 + (lexp.length : Int) + 1 + (lsd.length : Int) + 1
      + (lver.length : Int) + (ver.length : Int) + 1)
      = ((da.length : Int), lda.length) := by
    rw [show D = (0x30 :: (l0 ++ 0x06 :: (loid ++ oid ++ 0xA0 :: (lexp ++ 0x30 ::
      (lsd ++ 0x02 :: (lver ++ ver ++ [0x31])))))) ++ lda ++ (da ++ 0x30 ::
      (lec ++ ec ++ 0xA0 :: (lcerts ++ certsBlob cs ++ hd :: post)))
      by simp [hD]]
    exact parseDERLength_at _ _ _ _ _ hda (by simp; ring)
  have h7 : jsGet D (1 + (l0.length : Int) + 1 + (loid.length : Int)
      + (oid.length : Int) + 1 + (lexp.length : Int) + 1 + (lsd.length : Int) + 1
      + (lver.length : Int) + (ver.length : Int) + 1 + (lda.length : Int)
      + (da.length : Int)) = 0x30 := by
    rw [show D = (0x30 :: (l0 ++ 0x06 :: (loid ++ oid ++ 0xA0 :: (lexp ++ 0x30 ::
      (lsd ++ 0x02 :: (lver ++ ver ++ 0x31 :: (lda ++ da))))))) ++ 0x30 ::
      (lec ++ ec ++ 0xA0 :: (lcerts ++ certsBlob cs ++ hd :: post))
      by simp [hD]]
    exact jsGet_at _ _ _ _ (by simp; ring)
  have hp7 : parseDERLength D (1 + (l0.length : Int) + 1 + (loid.length : Int)
      + (oid.length : Int) + 1 + (lexp.length : Int) + 1 + (lsd.length : Int) + 1
      + (lver.length : Int) + (ver.length : Int) + 1 + (lda.length : Int)
      + (da.length : Int) + 1) = ((ec.length : Int), lec.length) := by
    rw [show D = (0x30 :: (l0 ++ 0x06 :: (loid ++ oid ++ 0xA0 :: (lexp ++ 0x30 ::
      (lsd ++ 0x02 :: (lver ++ ver ++ 0x31 :: (lda ++ da ++ [0x30])))))))
      ++ lec ++ (ec ++ 0xA0 :: (lcerts ++ certsBlob cs ++ hd :: post))
      by simp [hD]]
    exact parseDERLength_at _ _ _ _ _ hec (by simp; ring)
  have h8 : jsGet D (1 + (l0.length : Int) + 1 + (loid.length : Int)
      + (oid.length : Int) + 1 + (lexp.length : Int) + 1 + (lsd.length : Int) + 1
      + (lver.length : Int) + (ver.length : Int) + 1 + (lda.length : Int)
      + (da.length : Int) + 1 + (lec.length : Int) + (ec.length : Int))
      = 0xA0 := by
    rw [show D = (0x30 :: (l0 ++ 0x06 :: (loid ++ oid ++ 0xA0 :: (lexp ++ 0x30 ::
      (lsd ++ 0x02 :: (lver ++ ver ++ 0x31 :: (lda ++ da ++ 0x30 ::
      (lec ++ ec)))))))) ++ 0xA0 :: (lcerts ++ certsBlob cs ++ hd :: post)
      by simp [hD]]
    exact jsGet_at _ _ _ _ (by simp; ring)
  have hp8 : parseDERLength D (1 + (l0.length : Int) + 1 + (loid.length : Int)
      + (oid.length : Int) + 1 + (lexp.length : Int) + 1 + (lsd.length : Int) + 1
      + (lver.length : Int) + (ver.length : Int) + 1 + (lda.length : Int)
      + (da.length : Int) + 1 + (lec.length : Int) + (ec.length : Int) + 1)
      = ((vcerts : Int), lcerts.length) := by
    rw [show D = (0x30 :: (l0 ++ 0x06 :: (loid ++ oid ++ 0xA0 :: (lexp ++ 0x30 ::
      (lsd ++ 0x02 :: (lver ++ ver ++ 0x31 :: (lda ++ da ++ 0x30 ::
      (lec ++ ec ++ [0xA0]))))))))
      ++ lcerts ++ (certsBlob cs ++ hd :: post)
      by simp [hD]]
    exact parseDERLength_at _ _ _ _ _ hcerts (by simp; ring)
  unfold extractCertificateFromSOD
  simp only [h1, hp1, h2, hp2, h3, hp3, h4, hp4, h5, hp5, h6, hp6, h7, hp7,
    h8, hp8, ne_eq, not_true_eq_false, if_false, reduceIte]
  rw [show (((i : Nat) : Int) + 1).toNat = i + 1 by omega]
  rw [show (1 + (l0.length : Int) + 1 + (loid.length : Int)
      + (oid.length : Int) + 1 + (lexp.length : Int) + 1 + (lsd.length : Int) + 1
      + (lver.length : Int) + (ver.length : Int) + 1 + (lda.length : Int)
      + (da.length : Int) + 1 + (lec.length : Int) + (ec.length : Int) + 1
      + (lcerts.length : Int))
      = (((0x30 :: (l0 ++ 0x06 :: (loid ++ oid ++ 0xA0 :: (lexp ++ 0x30 ::
        (lsd ++ 0x02 :: (lver ++ ver ++ 0x31 :: (lda ++ da ++ 0x30 ::
        (lec ++ ec ++ 0xA0 :: lcerts)))))))).length : Nat) : Int)
      by simp; push_cast; ring]
  rw [show D = (0x30 :: (l0 ++ 0x06 :: (loid ++ oid ++ 0xA0 :: (lexp ++ 0x30 ::
      (lsd ++ 0x02 :: (lver ++ ver ++ 0x31 :: (lda ++ da ++ 0x30 ::
      (lec ++ ec ++ 0xA0 :: lcerts)))))))) ++ certsBlob cs ++ (hd :: post)
    by simp [hD]]
  by_cases hcase : i < cs.length
  · rw [if_pos hcase]
    exact scanCerts_ok cs i _ (hd :: post) hcs hcase
  · rw [if_neg hcase]
    exact scanCerts_err cs i _ post hd hcs hph (by omega)

set_option maxRecDepth 100000 in
/-- Witness for C9: a minimal well-formed certificate whose BIT STRING
declares length 3 and carries the NON-ZERO unused-bits octet `5`; the
two remaining content bytes come back unchanged. -/
theorem extractSignatureFromCert_correct_witness :
    extractSignatureFromCert
      (0x30 :: ([10] ++ 0x30 :: ([2] ++ [1, 2] ++ 0x30 :: ([1] ++ [9]
        ++ 0x03 :: ([3] ++ 5 :: [222, 173])))))
      = .ok [222, 173] :=
  extractSignatureFromCert_correct [10] [2] [1] [3] [1, 2] [9] [222, 173] 10 5
    (Or.inl (by decide)) (Or.inl (by decide)) (Or.inl (by decide))
    (Or.inl (by decide))

set_option maxRecDepth 100000 in
/-- Counterexample for C8: a well-formed SOD holding exactly one
certificate, asked for certificate index `1`.  The spec says this fails
with the `Certificate index ... not found in SOD` error; the code instead
walks past the single certificate and throws
`expected certificate SEQUENCE` at the byte that follows (here `0x31`,
the signerInfos SET). -/
theorem extractCertificateFromSOD_counterexample :
    extractCertificateFromSOD
      [0x30, 0x20, 0x06, 0x01, 0x88, 0xA0, 0x15, 0x30, 0x12, 0x02, 0x01,
        0x01, 0x31, 0x00, 0x30, 0x00, 0xA0, 0x05, 0x30, 0x03, 0xAA, 0xBB,
        0xCC, 0x31] 1
      = .error (.malformed "Invalid SOD: expected certificate SEQUENCE")
    ∧ extractCertificateFromSOD
      [0x30, 0x20, 0x06, 0x01, 0x88, 0xA0, 0x15, 0x30, 0x12, 0x02, 0x01,
        0x01, 0x31, 0x00, 0x30, 0x00, 0xA0, 0x05, 0x30, 0x03, 0xAA, 0xBB,
        0xCC, 0x31] 1
      ≠ .error (.malformed "Certificate index not found in SOD") := by
  exact ⟨by decide, by decide⟩

set_option maxRecDepth 100000 in
/-- Witness for C8: the same one-certificate SOD in generator form; index
`0` returns the certificate SEQUENCE whole, index `5` (out of range)
throws the `expected certificate SEQUENCE` error. -/
theorem extractCertificateFromSOD_correct_witness :
    extractCertificateFromSOD
      (0x30 :: ([0x20] ++ 0x06 :: ([0x01] ++ [0x88] ++ 0xA0 :: ([0x15] ++ 0x30 ::
        ([0x12] ++ 0x02 :: ([0x01] ++ [0x01] ++ 0x31 :: ([0x00] ++ [] ++ 0x30 ::
        ([0x00] ++ [] ++ 0xA0 :: ([0x05] ++ certsBlob [([0x03], [0xAA, 0xBB, 0xCC])]
        ++ 0x31 :: []))))))))) ((0 : Nat) : Int)
      = .ok [0x30, 0x03, 0xAA, 0xBB, 0xCC]
    ∧ extractCertificateFromSOD
      (0x30 :: ([0x20] ++ 0x06 :: ([0x01] ++ [0x88] ++ 0xA0 :: ([0x15] ++ 0x30 ::
        ([0x12] ++ 0x02 :: ([0x01] ++ [0x01] ++ 0x31 :: ([0x00] ++ [] ++ 0x30 ::
        ([0x00] ++ [] ++ 0xA0 :: ([0x05] ++ certsBlob [([0x03], [0xAA, 0xBB, 0xCC])]
        ++ 0x31 :: []))))))))) ((5 : Nat) : Int)
      = .error (.malformed "Invalid SOD: expected certificate SEQUENCE") :=
  ⟨(extractCertificateFromSOD_correct [0x20] [0x01] [0x15] [0x12] [0x01]
      [0x00] [0x00] [0x05] [0x88] [0x01] [] [] [] 32 21 18 5 0x31
      [([0x03], [0xAA, 0xBB, 0xCC])] 0
      (Or.inl (by decide)) (Or.inl (by decide)) (Or.inl (by decide))
      (Or.inl (by decide)) (Or.inl (by decide)) (Or.inl (by decide))
      (Or.inl (by decide)) (Or.inl (by decide))
      (by intro c hc; rw [List.mem_singleton] at hc; subst hc
          exact Or.inl (by decide))
      (by decide)).trans (by decide),
   (extractCertificateFromSOD_correct [0x20] [0x01] [0x15] [0x12] [0x01]
      [0x00] [0x00] [0x05] [0x88] [0x01] [] [] [] 32 21 18 5 0x31
      [([0x03], [0xAA, 0xBB, 0xCC])] 5
      (Or.inl (by decide)) (Or.inl (by decide)) (Or.inl (by decide))
      (Or.inl (by decide)) (Or.inl (by decide)) (Or.inl (by decide))
      (Or.inl (by decide)) (Or.inl (by decide))
      (by intro c hc; rw [List.mem_singleton] at hc; subst hc
          exact Or.inl (by decide))
      (by decide)).trans (by decide)⟩
